import Mathlib

/-!
# Verification of the qubit-routing environment (`src/routing/env.py`)

A shallow embedding of the routing state machine of the repository:

* physical nodes and logical qubits are `Nat` indices;
* the mapping arrays `node_to_qubit` / `qubit_to_node` are `List Nat`;
* the circuit DAG is the ordered list of its operation nodes (`List OpNode`);
  two operations are dependent exactly when they share a logical qubit, so the
  front layer and the layer decomposition are computed from the list order;
* rewards are rationals (`ℚ`); the per-edge log-reliability values are stored
  in the state, as produced by calibration;
* the two environment variants (`SequentialRoutingEnv`, `LayeredRoutingEnv`)
  are records wrapping the shared base state.

Fallible operations (`__init__` validation, the layered `step`, which can raise
when unpacking `None`) return `Except` / `Option`.
-/

/-- An operation node of the circuit DAG (`DAGOpNode`): a unique id, whether the
underlying gate is a `CXGate` (the `isinstance(op_node.op, CXGate)` test of
`_bridge_args`), and its logical-qubit operands (already as indices, the Python
code converts `Qubit` objects through `qubits_to_indices`). -/
structure OpNode where
  id : Nat
  isCX : Bool
  qargs : List Nat
deriving DecidableEq, Repr

/-- A routed gate recorded in `routed_gates`: the inserted SWAP gate, the
inserted BRIDGE gate, or an original circuit operation (kept with its id and
CX-flag). -/
inductive RGate where
  | swapG : RGate
  | bridgeG : RGate
  | opG : Nat → Bool → RGate
deriving DecidableEq, Repr

/-- Modelled from the spec: `routing/noise.py` is not part of the sources, only
its callers are.  The spec describes the noise configuration as holding a fixed
"added-gate" reward constant and a monotonic transform converting per-edge
error rates into log-reliability values (`calculate_log_reliabilities`); the
transform is kept abstract as a function field. -/
structure NoiseConfig where
  addedGateReward : ℚ
  calcLogReliabilities : List ℚ → List ℚ

/-- The shared state of `RoutingEnv`.  Fields follow `env.py` attribute names.
`shortestPaths` is the all-pairs shortest-path table computed at construction;
`commGroups`/`commIdx` model the `commutation_set` property computed by the
external qiskit `CommutationAnalysis` pass: `commIdx opId q` is the index of
the commuting group of the operation on wire `q`, and `commGroups q i` the
operations of group `i` of wire `q`. -/
structure Env where
  numQubits : Nat
  numEdges : Nat
  edgeList : List (Nat × Nat)
  bridgePairs : List (Nat × Nat)
  shortestPaths : Nat → Nat → List Nat
  allowBridgeGate : Bool
  commutationAnalysis : Bool
  circuit : List OpNode
  initialMapping : List Nat
  errorRates : List ℚ
  noiseConfig : Option NoiseConfig
  logReliabilities : List ℚ
  edgeToLogReliability : Nat × Nat → ℚ
  nodeToQubit : List Nat
  qubitToNode : List Nat
  dag : List OpNode
  routedGates : List (RGate × List Nat)
  routedOpNodes : List Nat
  commGroups : Nat → Nat → List OpNode
  commIdx : Nat → Nat → Nat
  numScheduled2q : Nat
  schedulingReward : ℚ

/-- `RoutingEnv.terminated`: the DAG holds no more operations. -/
def terminatedE (e : Env) : Bool := e.dag.isEmpty

/-- `coupling_map.has_edge` on the undirected graph: membership of the edge in
either orientation. -/
def hasEdge (e : Env) (a b : Nat) : Bool :=
  e.edgeList.contains (a, b) || e.edgeList.contains (b, a)

/-- Map the logical qubits of an operation to physical nodes through the
current `qubit_to_node` array. -/
def mapNodes (e : Env) (qargs : List Nat) : List Nat :=
  qargs.map (fun q => e.qubitToNode.getD q 0)

/-- The front layer of the DAG: operations with no earlier operation sharing a
wire (qubit).  `blocked` accumulates the qubits of the operations already
passed. -/
def frontLayerAux (blocked : List Nat) : List OpNode → List OpNode
  | [] => []
  | op :: rest =>
    if op.qargs.any (fun q => blocked.contains q) then
      frontLayerAux (blocked ++ op.qargs) rest
    else
      op :: frontLayerAux (blocked ++ op.qargs) rest

/-- `dag.front_layer()`. -/
def frontLayer (dag : List OpNode) : List OpNode := frontLayerAux [] dag

/-- Insert an operation into the bucket of its layer, growing the bucket list
as needed. -/
def bucketsAdd (buckets : List (List OpNode)) (i : Nat) (op : OpNode) :
    List (List OpNode) :=
  match buckets, i with
  | [], 0 => [[op]]
  | [], n + 1 => [] :: bucketsAdd [] n op
  | b :: rest, 0 => (b ++ [op]) :: rest
  | b :: rest, n + 1 => b :: bucketsAdd rest n op

/-- Modelled from the spec: `dag_layers` (from the missing `dag_utils` module)
performs the "layer decomposition of the DAG" — operation `o` lies in layer
`ℓ(o) = 1 + max ℓ` over the operations it depends on (as-soon-as-possible
layering along the qubit wires), which coincides with iterated front-layer
peeling. -/
def dagLayersAux (depth : Nat → Nat) (buckets : List (List OpNode)) :
    List OpNode → List (List OpNode)
  | [] => buckets
  | op :: rest =>
    let lvl := op.qargs.foldl (fun m q => max m (depth q)) 0
    dagLayersAux (fun q => if op.qargs.contains q then lvl + 1 else depth q)
      (bucketsAdd buckets lvl op) rest

/-- Layer decomposition of the DAG, first layer first. -/
def dagLayers (dag : List OpNode) : List (List OpNode) :=
  dagLayersAux (fun _ => 0) [] dag

/-- `RoutingEnv._is_schedulable`: valid under the current mapping (not a
two-node tuple, or its two nodes joined by an edge) and touching no locked
node. -/
def isSchedulable (e : Env) (nodes : List Nat) (locked : List Nat) : Bool :=
  (nodes.length != 2 || hasEdge e (nodes.getD 0 0) (nodes.getD 1 0)) &&
    nodes.all (fun n => !(locked.contains n))

/-- The mapping-validity half of the schedulability test, as a proposition:
the node tuple is not a two-qubit one, or its two nodes are joined by a
connectivity edge. -/
@[reducible] def validNodes (e : Env) (nodes : List Nat) : Prop :=
  nodes.length ≠ 2 ∨ hasEdge e (nodes.getD 0 0) (nodes.getD 1 0) = true

/-- `OrderedSet.add` on the scheduling list: append unless already present. -/
def addGate (gates : List (OpNode × List Nat)) (g : OpNode × List Nat) :
    List (OpNode × List Nat) :=
  if gates.contains g then gates else gates ++ [g]

/-- Deduplicate, keeping first occurrences (`OrderedSet` built from a list). -/
def dedupOps : List OpNode → List OpNode
  | [] => []
  | o :: rest => o :: dedupOps (rest.filter (fun x => x ≠ o))
termination_by l => l.length
decreasing_by
  simp only [List.length_cons]
  exact Nat.lt_succ_of_le (List.length_filter_le _ _)

/-- The commuting candidates considered for a blocked operation on wire `q`:
the commuting group of the operation on that wire, first occurrences only,
minus the operation itself and the already-routed operations
(`commuting_op_nodes.difference_update({op_node}, self.routed_op_nodes)`). -/
def commCandidates (e : Env) (op : OpNode) (q : Nat) : List OpNode :=
  (dedupOps (e.commGroups q (e.commIdx op.id q))).filter
    (fun c => c ≠ op && !(e.routedOpNodes.contains c.id))

/-- Add nodes to the locked set, keeping it duplicate-free so that its length
is the number of locked nodes (`len(locked_nodes)` on the Python `set`). -/
def lockedAdd (locked : List Nat) (nodes : List Nat) : List Nat :=
  nodes.foldl (fun l n => if l.contains n then l else l ++ [n]) locked

/-- The body of `RoutingEnv._schedulable_gates`: one pass over the candidate
operations (the concatenated layers).  A schedulable operation is collected; a
blocked one triggers, when commutation analysis is on, the lookahead over its
wires whose *qubit index* is not locked (the code compares the qubit index with
the locked-*node* set), then locks its nodes.  The pass stops early once every
node is locked. -/
def schedPass (e : Env) :
    List OpNode → List (OpNode × List Nat) → List Nat → List (OpNode × List Nat)
  | [], gates, _ => gates
  | op :: rest, gates, locked =>
    let nodes := mapNodes e op.qargs
    if isSchedulable e nodes locked then
      let gates1 := addGate gates (op, nodes)
      if locked.length = e.numQubits then gates1
      else schedPass e rest gates1 locked
    else
      let gates1 :=
        if e.commutationAnalysis then
          (op.qargs.filter (fun q => !(locked.contains q))).foldl
            (fun gs q =>
              (commCandidates e op q).foldl
                (fun gs c =>
                  let cnodes := mapNodes e c.qargs
                  if isSchedulable e cnodes locked then addGate gs (c, cnodes)
                  else gs)
                gs)
            gates
        else gates
      let locked1 := lockedAdd locked nodes
      if locked1.length = e.numQubits then gates1
      else schedPass e rest gates1 locked1

/-- `RoutingEnv._schedulable_gates`. -/
def schedulableGates (e : Env) (onlyFrontLayer : Bool) :
    List (OpNode × List Nat) :=
  let layers := if onlyFrontLayer then [frontLayer e.dag] else dagLayers e.dag
  schedPass e layers.flatten [] []

/-- `RoutingEnv._gate_reward`. -/
def gateReward (e : Env) (edge : Nat × Nat) : ℚ :=
  match e.noiseConfig with
  | some cfg => e.edgeToLogReliability edge + cfg.addedGateReward
  | none => 1

/-- `RoutingEnv._swap_reward`. -/
def swapReward (e : Env) (edge : Nat × Nat) : ℚ :=
  match e.noiseConfig with
  | some _ => 3 * e.edgeToLogReliability edge
  | none => -3

/-- `RoutingEnv._bridge_reward`. -/
def bridgeReward (e : Env) (control middle target : Nat) : ℚ :=
  match e.noiseConfig with
  | some cfg =>
    2 * (e.edgeToLogReliability (middle, target) +
         e.edgeToLogReliability (control, middle)) + cfg.addedGateReward
  | none => -2

/-- `RoutingEnv._remove_op_node`: delete the node from the DAG and mark it
routed. -/
def removeOpNode (e : Env) (op : OpNode) : Env :=
  { e with
    dag := e.dag.filter (fun o => o.id ≠ op.id)
    routedOpNodes :=
      if e.routedOpNodes.contains op.id then e.routedOpNodes
      else e.routedOpNodes ++ [op.id] }

/-- One iteration of the loop of `RoutingEnv._schedule_gates`: record the
routed gate (its qubit operands are the physical node tuple, as
`indices_to_qubits(self.circuit, nodes)` produces) and remove it from the
DAG. -/
def scheduleGatesStep (e : Env) (g : OpNode × List Nat) : Env :=
  removeOpNode
    { e with routedGates := e.routedGates ++ [(RGate.opG g.1.id g.1.isCX, g.2)] }
    g.1

/-- `RoutingEnv._schedule_gates`: commit a batch, then record the batch size
(`_num_scheduled_2q_gates = len(gates)`, which counts *all* committed gates)
and the summed per-edge gate reward of its two-qubit members. -/
def scheduleGates (e : Env) (gates : List (OpNode × List Nat)) : Env :=
  let e1 := gates.foldl scheduleGatesStep e
  { e1 with
    numScheduled2q := gates.length
    schedulingReward :=
      ((gates.filter (fun g => g.2.length == 2)).map
        (fun g => gateReward e1 (g.2.getD 0 0, g.2.getD 1 0))).sum }

/-- Insertion into a sorted list of naturals. -/
def insSorted (x : Nat) : List Nat → List Nat
  | [] => [x]
  | y :: rest => if x ≤ y then x :: y :: rest else y :: insSorted x rest

/-- `sorted` on a list of naturals (insertion sort). -/
def sortNat (l : List Nat) : List Nat := l.foldr insSorted []

/-- The scan of `RoutingEnv._bridge_args` over the front layer: the first
`CXGate` operation whose mapped nodes, sorted, equal the requested pair is
returned together with the shortest path between its (unsorted) control and
target nodes. -/
def bridgeScan (e : Env) (pair : Nat × Nat) :
    List OpNode → Option (OpNode × List Nat)
  | [] => none
  | op :: rest =>
    if op.isCX = true ∧ sortNat (mapNodes e op.qargs) = [pair.1, pair.2] then
      some (op, e.shortestPaths ((mapNodes e op.qargs).getD 0 0)
        ((mapNodes e op.qargs).getD 1 0))
    else bridgeScan e pair rest

/-- `RoutingEnv._bridge_args`. -/
def bridgeArgs (e : Env) (pair : Nat × Nat) : Option (OpNode × List Nat) :=
  bridgeScan e pair (frontLayer e.dag)

/-- `RoutingEnv._swap`: record the SWAP into `routed_gates` and exchange the
two mapping entries (the simultaneous Python assignments, second component
written last). -/
def swapApply (e : Env) (edge : Nat × Nat) : Env :=
  let qa := e.nodeToQubit.getD edge.1 0
  let qb := e.nodeToQubit.getD edge.2 0
  { e with
    routedGates := e.routedGates ++ [(RGate.swapG, [edge.1, edge.2])]
    nodeToQubit := (e.nodeToQubit.set edge.1 qb).set edge.2 qa
    qubitToNode := (e.qubitToNode.set qa edge.2).set qb edge.1 }

/-- `RoutingEnv._bridge`: append the BRIDGE operation on the three path nodes;
the mapping is untouched. -/
def bridgeApply (e : Env) (path : List Nat) : Env :=
  { e with routedGates := e.routedGates ++ [(RGate.bridgeG, path)] }

/-- `RoutingEnv.calibrate`: store the error-rate array; in a noise-aware
environment recompute the log reliabilities and the symmetric edge lookup
dictionary (`zip(self.edge_list, self.log_reliabilities)`, which silently
truncates to the shorter argument).  No shape validation is performed. -/
def calibrate (e : Env) (errorRates : List ℚ) : Env :=
  match e.noiseConfig with
  | none => { e with errorRates := errorRates }
  | some cfg =>
    let logRel := cfg.calcLogReliabilities errorRates
    let pairs := e.edgeList.zip logRel
    { e with
      errorRates := errorRates
      logReliabilities := logRel
      edgeToLogReliability := fun edge =>
        match pairs.find? (fun p => p.1 == edge || (p.1.2, p.1.1) == edge) with
        | some p => p.2
        | none => 0 }

/-- The in-place inverse-building loop
`for node, qubit in enumerate(n2q): q2n[qubit] = node`, starting at index
`start` (used by both `__init__` and `_reset_state`; entries of the old array
not overwritten are kept). -/
def setInverseFrom (q2n : List Nat) (n2q : List Nat) (start : Nat) : List Nat :=
  match n2q with
  | [] => q2n
  | q :: rest => setInverseFrom (q2n.set q start) rest (start + 1)

/-- Neighbours of `u` in the undirected edge list. -/
def nbrs (edges : List (Nat × Nat)) (u : Nat) : List Nat :=
  edges.foldr
    (fun e acc =>
      if e.1 = u then e.2 :: acc else if e.2 = u then e.1 :: acc else acc) []

/-- One breadth-first round: extend every known shortest path by one hop to the
nodes not reached yet. -/
def bfsRound (edges : List (Nat × Nat)) (best : List (Nat × List Nat)) :
    List (Nat × List Nat) :=
  best.foldl
    (fun acc up =>
      (nbrs edges up.1).foldl
        (fun acc v =>
          if acc.any (fun p => p.1 == v) then acc
          else acc ++ [(v, up.2 ++ [v])])
        acc)
    best

/-- Shortest paths from source `s` after `n` breadth-first rounds. -/
def bfsPaths (edges : List (Nat × Nat)) : Nat → Nat → List (Nat × List Nat)
  | 0, s => [(s, [s])]
  | n + 1, s => bfsRound edges (bfsPaths edges n s)

/-- The all-pairs shortest-path table
(`rx.graph_all_pairs_dijkstra_shortest_paths` with unit weights): the list of
nodes of a shortest `s`–`t` path, `[]` when unreachable. -/
def spTable (numQubits : Nat) (edges : List (Nat × Nat)) (s t : Nat) :
    List Nat :=
  match (bfsPaths edges numQubits s).find? (fun p => p.1 == t) with
  | some p => p.2
  | none => []

/-- Lexicographic order on pairs, as Python `sorted` uses on 2-tuples. -/
def pairLe (p q : Nat × Nat) : Bool :=
  p.1 < q.1 || (p.1 == q.1 && p.2 ≤ q.2)

/-- Insertion into a lexicographically sorted list of pairs. -/
def insPair (x : Nat × Nat) : List (Nat × Nat) → List (Nat × Nat)
  | [] => [x]
  | y :: rest => if pairLe x y then x :: y :: rest else y :: insPair x rest

/-- `sorted` on a list of pairs. -/
def sortPairs (l : List (Nat × Nat)) : List (Nat × Nat) := l.foldr insPair []

/-- The bridge-pair computation of `__init__`:
`sorted((j, i) for i in range(nq) for j in range(i) if dist(j, i) == 2)` (a
shortest path of three nodes means distance exactly two). -/
def bridgePairsOf (numQubits : Nat) (edges : List (Nat × Nat)) :
    List (Nat × Nat) :=
  sortPairs
    (((List.range numQubits).map (fun i =>
      (List.range i).filterMap (fun j =>
        if (spTable numQubits edges j i).length == 3 then some (j, i)
        else none))).flatten)

/-- `RoutingEnv.__init__` up to the observation modules (which are not part of
the routing state): defaulting of the optional arguments, the two shape
validations, the derived connectivity data, the mapping arrays, the DAG, and
the initial calibration of a noise-aware environment.  Returns
`Except.error` exactly when a validation fails, in which case no instance is
created. -/
def mkEnvCore (numQubits : Nat) (edges : List (Nat × Nat))
    (circuit : List OpNode) (initialMappingOpt : Option (List Nat))
    (allowBridgeGate commutationAnalysis : Bool)
    (errorRatesOpt : Option (List ℚ)) (noiseConfig : Option NoiseConfig)
    (commGroups : Nat → Nat → List OpNode) (commIdx : Nat → Nat → Nat) :
    Except String Env :=
  let numEdges := edges.length
  let initialMapping := initialMappingOpt.getD (List.range numQubits)
  let errorRates := errorRatesOpt.getD (List.replicate numEdges 0)
  if initialMapping.length ≠ numQubits then
    Except.error "Initial mapping has invalid shape for the provided coupling map"
  else if errorRates.length ≠ numEdges then
    Except.error "Error rates have invalid shape for the provided coupling map"
  else
    let env : Env :=
      { numQubits := numQubits
        numEdges := numEdges
        edgeList := edges
        bridgePairs := if allowBridgeGate then bridgePairsOf numQubits edges else []
        shortestPaths := spTable numQubits edges
        allowBridgeGate := allowBridgeGate
        commutationAnalysis := commutationAnalysis
        circuit := circuit
        initialMapping := initialMapping
        errorRates := errorRates
        noiseConfig := noiseConfig
        logReliabilities := []
        edgeToLogReliability := fun _ => 0
        nodeToQubit := initialMapping
        qubitToNode :=
          setInverseFrom (List.replicate numQubits 0) initialMapping 0
        dag := circuit
        routedGates := []
        routedOpNodes := []
        commGroups := commGroups
        commIdx := commIdx
        numScheduled2q := 0
        schedulingReward := 0 }
    Except.ok (if noiseConfig.isSome then calibrate env errorRates else env)

/-- The variant-independent part of `reset` and `_reset_state`: rebuild the
DAG from the circuit, clear the routed logs, restore `node_to_qubit` from the
initial mapping, and rebuild `qubit_to_node` in place (the loop overwrites the
existing array).  The commutation pass recomputes its property set from the
same circuit; its tables are the fixed `commGroups`/`commIdx` fields.  The
variant's `_update_state` runs afterwards. -/
def resetBase (e : Env) : Env :=
  { e with
    dag := e.circuit
    routedGates := []
    routedOpNodes := []
    nodeToQubit := e.initialMapping
    qubitToNode := setInverseFrom e.qubitToNode e.initialMapping 0 }

/-- `SequentialRoutingEnv`: the base state plus the front-layer SWAP
restriction flag and the remembered no-op SWAP. -/
structure SeqEnv where
  base : Env
  restrictSwapsToFrontLayer : Bool
  blockedSwap : Option Nat

/-- `SequentialRoutingEnv._update_state`: full scheduling (all layers) and
commit. -/
def seqUpdateState (e : Env) : Env :=
  scheduleGates e (schedulableGates e false)

/-- `SequentialRoutingEnv.step`.  Returns the new state, the reward and the
`terminated` flag (the observation, the constant `truncated=False` and the
empty info dictionary carry no state).  A terminated environment returns
immediately with zero reward and an unchanged state.  An invalid BRIDGE action
(no candidate) keeps the state and contributes zero action reward; the
diagnostic print has no state effect. -/
def seqStep (s : SeqEnv) (a : Nat) : SeqEnv × ℚ × Bool :=
  if terminatedE s.base then (s, 0, true)
  else
    let actionIsSwap := a < s.base.numEdges
    let step1 : Env × ℚ :=
      if a < s.base.numEdges then
        let edge := s.base.edgeList.getD a (0, 0)
        (swapApply s.base edge, swapReward s.base edge)
      else
        let pair := s.base.bridgePairs.getD (a - s.base.numEdges) (0, 0)
        match bridgeArgs s.base pair with
        | some args =>
          let e2 := bridgeApply (removeOpNode s.base args.1) args.2
          (e2, bridgeReward e2 (args.2.getD 0 0) (args.2.getD 1 0)
            (args.2.getD 2 0))
        | none => (s.base, 0)
    let e3 := seqUpdateState step1.1
    let reward := step1.2 + e3.schedulingReward
    let blocked :=
      if actionIsSwap && e3.numScheduled2q == 0 then some a else none
    ({ s with base := e3, blockedSwap := blocked }, reward, terminatedE e3)

/-- `SchedulingMap.__setitem__`: writing `0` deletes the key; otherwise the
value is replaced in place or the key appended. -/
def smSet (m : List (Nat × Nat)) (k v : Nat) : List (Nat × Nat) :=
  if v = 0 then m.filter (fun p => p.1 ≠ k)
  else if m.any (fun p => p.1 == k) then
    m.map (fun p => if p.1 = k then (k, v) else p)
  else m ++ [(k, v)]

/-- `SchedulingMap.decrement`: decrement every entry, entries reaching zero
are removed. -/
def smDecrement (m : List (Nat × Nat)) : List (Nat × Nat) :=
  m.filterMap (fun p => if p.2 - 1 = 0 then none else some (p.1, p.2 - 1))

/-- `SchedulingMap.update_all` with the default value 1. -/
def smUpdateAll (m : List (Nat × Nat)) (keys : List Nat) : List (Nat × Nat) :=
  keys.foldl (fun m k => smSet m k 1) m

/-- `self.scheduling_map.keys() & nodes` as a boolean. -/
def smHasAny (m : List (Nat × Nat)) (nodes : List Nat) : Bool :=
  nodes.any (fun n => m.any (fun p => p.1 == n))

/-- `LayeredRoutingEnv`: the base state plus the decomposed-action flag and
the node-lock map. -/
structure LayEnv where
  base : Env
  useDecomposedActions : Bool
  schedulingMap : List (Nat × Nat)

/-- `LayeredRoutingEnv._schedulable_gates`: the base pass filtered by the
scheduling map. -/
def laySchedulableGates (l : LayEnv) (onlyFrontLayer : Bool) :
    List (OpNode × List Nat) :=
  (schedulableGates l.base onlyFrontLayer).filter
    (fun g => !(smHasAny l.schedulingMap g.2))

/-- `LayeredRoutingEnv._schedule_gates`: the base commit plus locking every
node of the batch. -/
def layScheduleGates (l : LayEnv) (gates : List (OpNode × List Nat)) : LayEnv :=
  { l with
    base := scheduleGates l.base gates
    schedulingMap := smUpdateAll l.schedulingMap (gates.map Prod.snd).flatten }

/-- `LayeredRoutingEnv._update_state`: decrement every lock, then schedule and
commit from the front layer only. -/
def layUpdateState (l : LayEnv) : LayEnv :=
  let l1 : LayEnv := { l with schedulingMap := smDecrement l.schedulingMap }
  layScheduleGates l1 (laySchedulableGates l1 true)

/-- `LayeredRoutingEnv.step`.  There is no terminated-state guard.  The BRIDGE
branch unpacks `self._bridge_args(pair)` without a `None` check: when no
candidate exists the step raises (`none` here).  SWAP and BRIDGE lock their
touched nodes; COMMIT runs `_update_state`. -/
def layStep (l : LayEnv) (a : Nat) : Option (LayEnv × ℚ × Bool) :=
  if a < l.base.numEdges then
    let edge := l.base.edgeList.getD a (0, 0)
    let l1 : LayEnv :=
      { l with
        base := swapApply l.base edge
        schedulingMap := smUpdateAll l.schedulingMap [edge.1, edge.2] }
    some (l1, swapReward l.base edge, terminatedE l1.base)
  else if a < l.base.numEdges + l.base.bridgePairs.length then
    let pair := l.base.bridgePairs.getD (a - l.base.numEdges) (0, 0)
    match bridgeArgs l.base pair with
    | none => none
    | some args =>
      let e3 := bridgeApply (removeOpNode l.base args.1) args.2
      let l1 : LayEnv :=
        { l with base := e3, schedulingMap := smUpdateAll l.schedulingMap args.2 }
      some (l1, bridgeReward e3 (args.2.getD 0 0) (args.2.getD 1 0)
        (args.2.getD 2 0), terminatedE e3)
  else
    let l1 := layUpdateState l
    some (l1, l1.base.schedulingReward, terminatedE l1.base)

/-- `SequentialRoutingEnv` construction (`__init__` then the subclass body;
`_blocked_swap` starts as `None`). -/
def mkSeqEnv (numQubits : Nat) (edges : List (Nat × Nat))
    (circuit : List OpNode) (initialMappingOpt : Option (List Nat))
    (allowBridgeGate commutationAnalysis : Bool)
    (errorRatesOpt : Option (List ℚ)) (noiseConfig : Option NoiseConfig)
    (commGroups : Nat → Nat → List OpNode) (commIdx : Nat → Nat → Nat)
    (restrictSwapsToFrontLayer : Bool) : Except String SeqEnv :=
  (mkEnvCore numQubits edges circuit initialMappingOpt allowBridgeGate
      commutationAnalysis errorRatesOpt noiseConfig commGroups commIdx).map
    (fun e =>
      { base := e
        restrictSwapsToFrontLayer := restrictSwapsToFrontLayer
        blockedSwap := none })

/-- `LayeredRoutingEnv` construction. -/
def mkLayEnv (numQubits : Nat) (edges : List (Nat × Nat))
    (circuit : List OpNode) (initialMappingOpt : Option (List Nat))
    (allowBridgeGate commutationAnalysis : Bool)
    (errorRatesOpt : Option (List ℚ)) (noiseConfig : Option NoiseConfig)
    (commGroups : Nat → Nat → List OpNode) (commIdx : Nat → Nat → Nat)
    (useDecomposedActions : Bool) : Except String LayEnv :=
  (mkEnvCore numQubits edges circuit initialMappingOpt allowBridgeGate
      commutationAnalysis errorRatesOpt noiseConfig commGroups commIdx).map
    (fun e =>
      { base := e
        useDecomposedActions := useDecomposedActions
        schedulingMap := [] })

/-- `reset` of the sequential variant (`_blocked_swap` is *not* cleared by
`reset`, matching the code). -/
def seqReset (s : SeqEnv) : SeqEnv :=
  { s with base := seqUpdateState (resetBase s.base) }

/-- `reset` of the layered variant: `_reset_state` clears the scheduling map
before the shared reset logic and the layered `_update_state`. -/
def layReset (l : LayEnv) : LayEnv :=
  layUpdateState { l with base := resetBase l.base, schedulingMap := [] }

/-- A permutation array of size `n`: correct length, entries below `n`,
injective, surjective (the precondition under which `initial_mapping` is a
mapping of the `n` physical nodes onto the `n` logical qubits, as its
documentation requires). -/
@[reducible] def IsPerm (l : List Nat) (n : Nat) : Prop :=
  l.length = n ∧ (∀ i, i < n → l.getD i 0 < n) ∧
    (∀ i, i < n → ∀ j, j < n → l.getD i 0 = l.getD j 0 → i = j) ∧
    (∀ q, q < n → ((List.range n).any (fun i => l.getD i 0 == q)) = true)

/-- The states of a sequential routing environment reachable by construction
(with a well-formed coupling graph and a permutation effective initial
mapping), reset, and in-range step actions (the action space has one action
per edge and one per bridge pair). -/
inductive ReachableSeq : SeqEnv → Prop where
  | init (numQubits : Nat) (edges : List (Nat × Nat)) (circuit : List OpNode)
      (initialMappingOpt : Option (List Nat)) (allowBridgeGate : Bool)
      (commutationAnalysis : Bool) (errorRatesOpt : Option (List ℚ))
      (noiseConfig : Option NoiseConfig) (commGroups : Nat → Nat → List OpNode)
      (commIdx : Nat → Nat → Nat) (restrictSwapsToFrontLayer : Bool)
      (s : SeqEnv)
      (hedges : ∀ p ∈ edges, p.1 < numQubits ∧ p.2 < numQubits)
      (hperm : IsPerm (initialMappingOpt.getD (List.range numQubits)) numQubits)
      (hmk : mkSeqEnv numQubits edges circuit initialMappingOpt allowBridgeGate
        commutationAnalysis errorRatesOpt noiseConfig commGroups commIdx
        restrictSwapsToFrontLayer = Except.ok s) :
      ReachableSeq s
  | reset (s : SeqEnv) : ReachableSeq s → ReachableSeq (seqReset s)
  | step (s : SeqEnv) (a : Nat) : ReachableSeq s →
      a < s.base.numEdges + s.base.bridgePairs.length →
      ReachableSeq (seqStep s a).1

/-- The states of a layered routing environment reachable by construction,
reset, and non-raising step actions (the action space additionally holds the
COMMIT action). -/
inductive ReachableLay : LayEnv → Prop where
  | init (numQubits : Nat) (edges : List (Nat × Nat)) (circuit : List OpNode)
      (initialMappingOpt : Option (List Nat)) (allowBridgeGate : Bool)
      (commutationAnalysis : Bool) (errorRatesOpt : Option (List ℚ))
      (noiseConfig : Option NoiseConfig) (commGroups : Nat → Nat → List OpNode)
      (commIdx : Nat → Nat → Nat) (useDecomposedActions : Bool)
      (l : LayEnv)
      (hedges : ∀ p ∈ edges, p.1 < numQubits ∧ p.2 < numQubits)
      (hperm : IsPerm (initialMappingOpt.getD (List.range numQubits)) numQubits)
      (hmk : mkLayEnv numQubits edges circuit initialMappingOpt allowBridgeGate
        commutationAnalysis errorRatesOpt noiseConfig commGroups commIdx
        useDecomposedActions = Except.ok l) :
      ReachableLay l
  | reset (l : LayEnv) : ReachableLay l → ReachableLay (layReset l)
  | step (l : LayEnv) (a : Nat) (out : LayEnv × ℚ × Bool) : ReachableLay l →
      a < l.base.numEdges + l.base.bridgePairs.length + 1 →
      layStep l a = some out → ReachableLay out.1

/-- The mapping invariant: the two arrays have the advertised length and are
mutual inverses (in particular `qubit_to_node[node_to_qubit[n]] == n` for
every physical node `n`). -/
@[reducible] def MapInv (e : Env) : Prop :=
  e.nodeToQubit.length = e.numQubits ∧ e.qubitToNode.length = e.numQubits ∧
    (∀ n, n < e.numQubits →
      e.nodeToQubit.getD n 0 < e.numQubits ∧
      e.qubitToNode.getD (e.nodeToQubit.getD n 0) 0 = n) ∧
    (∀ q, q < e.numQubits →
      e.qubitToNode.getD q 0 < e.numQubits ∧
      e.nodeToQubit.getD (e.qubitToNode.getD q 0) 0 = q)

/-- The well-formedness carried through the reachability induction: the
mapping invariant, edge endpoints inside the node range, the edge count, and
the stored initial mapping being a permutation. -/
@[reducible] def GoodBase (e : Env) : Prop :=
  MapInv e ∧ (∀ p ∈ e.edgeList, p.1 < e.numQubits ∧ p.2 < e.numQubits) ∧
    e.edgeList.length = e.numEdges ∧ IsPerm e.initialMapping e.numQubits

/-- The sequential environment with explicit reference semantics for
`routed_op_nodes`.  `RoutingEnv.copy` builds a `copy.copy` of the instance and
then rebinds `node_to_qubit`, `qubit_to_node`, `dag` and `routed_gates` to
fresh value copies; those four collections (and the scalar attributes, which
`step` only ever rebinds) therefore behave as values and stay in `val`.  The
`routed_op_nodes` set is the one mutable collection `copy` does not replace and
that `step` mutates in place (`self.routed_op_nodes.add(...)` inside
`_remove_op_node`), so it lives in a store addressed by `ref`; the
`routedOpNodes` field inside `val` is shadowed by the store.  The layered
subclass additionally copies `scheduling_map` by value. -/
structure SeqEnvR where
  val : SeqEnv
  ref : Nat

/-- The heap of `routed_op_nodes` set objects. -/
def Store : Type := Nat → List Nat

/-- The state an environment object observes: its value fields with
`routed_op_nodes` read through its reference. -/
def readR (r : SeqEnvR) (st : Store) : SeqEnv :=
  { r.val with base := { r.val.base with routedOpNodes := st r.ref } }

/-- `RoutingEnv.copy` in the reference model: every value field is duplicated
(equal values), while the `routed_op_nodes` reference is shared — the copy
observes the same set object as the original. -/
def copyR (r : SeqEnvR) : SeqEnvR := r

/-- `SequentialRoutingEnv.step` in the reference model: run the pure step on
the observed state and write the resulting `routed_op_nodes` contents back
through the (unchanged) reference. -/
def stepR (r : SeqEnvR) (st : Store) (a : Nat) : SeqEnvR × Store × ℚ × Bool :=
  let res := seqStep (readR r st) a
  (⟨res.1, r.ref⟩,
    fun i => if i = r.ref then res.1.base.routedOpNodes else st i,
    res.2.1, res.2.2)

/-- A template state with empty/trivial fields; the concrete test
environments below override the relevant fields. -/
def templateEnv : Env where
  numQubits := 0
  numEdges := 0
  edgeList := []
  bridgePairs := []
  shortestPaths := fun _ _ => []
  allowBridgeGate := true
  commutationAnalysis := false
  circuit := []
  initialMapping := []
  errorRates := []
  noiseConfig := none
  logReliabilities := []
  edgeToLogReliability := fun _ => 0
  nodeToQubit := []
  qubitToNode := []
  dag := []
  routedGates := []
  routedOpNodes := []
  commGroups := fun _ _ => []
  commIdx := fun _ _ => 0
  numScheduled2q := 0
  schedulingReward := 0

/-- Two CX gates on the same qubit pair, mapped onto the single edge of a
two-node device: the pass schedules both in one call, the second reusing the
nodes of the first. -/
def envC2 : Env :=
  { templateEnv with
    numQubits := 2
    numEdges := 1
    edgeList := [(0, 1)]
    circuit := [⟨0, true, [0, 1]⟩, ⟨1, true, [0, 1]⟩]
    initialMapping := [0, 1]
    nodeToQubit := [0, 1]
    qubitToNode := [0, 1]
    dag := [⟨0, true, [0, 1]⟩, ⟨1, true, [0, 1]⟩] }

/-- A four-node line (edges 0–1, 1–2, 2–3, bridge pairs (0,2) and (1,3)) with
a single CX between the qubits on nodes 0 and 2: no gate is schedulable, the
pair (0,2) has a bridge candidate and the pair (1,3) has none. -/
def envC4 : Env :=
  { templateEnv with
    numQubits := 4
    numEdges := 3
    edgeList := [(0, 1), (1, 2), (2, 3)]
    bridgePairs := [(0, 2), (1, 3)]
    shortestPaths := spTable 4 [(0, 1), (1, 2), (2, 3)]
    circuit := [⟨0, true, [0, 2]⟩]
    initialMapping := [0, 1, 2, 3]
    nodeToQubit := [0, 1, 2, 3]
    qubitToNode := [0, 1, 2, 3]
    dag := [⟨0, true, [0, 2]⟩] }

/-- The sequential environment around `envC4`. -/
def seqEnvC4 : SeqEnv where
  base := envC4
  restrictSwapsToFrontLayer := true
  blockedSwap := none

/-- A terminated sequential environment (empty DAG) with one edge. -/
def seqEnvC5 : SeqEnv where
  base :=
    { templateEnv with
      numQubits := 2
      numEdges := 1
      edgeList := [(0, 1)]
      initialMapping := [0, 1]
      nodeToQubit := [0, 1]
      qubitToNode := [0, 1]
      routedGates := [(RGate.swapG, [0, 1])] }
  restrictSwapsToFrontLayer := true
  blockedSwap := none

/-- A noise-unaware environment with three edges, used to calibrate with an
array of the wrong shape. -/
def envC6 : Env :=
  { templateEnv with
    numQubits := 4
    numEdges := 3
    edgeList := [(0, 1), (1, 2), (2, 3)]
    initialMapping := [0, 1, 2, 3]
    nodeToQubit := [0, 1, 2, 3]
    qubitToNode := [0, 1, 2, 3] }

/-- A front layer holding a CX whose mapped nodes are the distance-two pair
(0,2): a bridge candidate exists for that pair. -/
def envC8w : Env :=
  { templateEnv with
    numQubits := 3
    numEdges := 2
    edgeList := [(0, 1), (1, 2)]
    bridgePairs := [(0, 2)]
    shortestPaths := fun a b => if a = 0 ∧ b = 2 then [0, 1, 2] else []
    circuit := [⟨0, true, [0, 2]⟩]
    initialMapping := [0, 1, 2]
    nodeToQubit := [0, 1, 2]
    qubitToNode := [0, 1, 2]
    dag := [⟨0, true, [0, 2]⟩] }

/-- The same layout as `envC8w`, but the front-layer operation on the pair
(0,2) is a two-qubit gate that is *not* a CX. -/
def envC8c : Env :=
  { envC8w with
    circuit := [⟨0, false, [0, 2]⟩]
    dag := [⟨0, false, [0, 2]⟩] }

/-- A noise-unaware environment for the reward values. -/
def envC9u : Env :=
  { templateEnv with
    numQubits := 2
    numEdges := 1
    edgeList := [(0, 1)]
    initialMapping := [0, 1]
    nodeToQubit := [0, 1]
    qubitToNode := [0, 1] }

/-- The noise configuration of the noise-aware reward test environment. -/
def cfgC9 : NoiseConfig where
  addedGateReward := 5
  calcLogReliabilities := fun _ => []

/-- A noise-aware environment whose every edge has log-reliability −1. -/
def envC9a : Env :=
  { envC9u with
    noiseConfig := some cfgC9
    edgeToLogReliability := fun _ => -1 }

/-- A terminated layered environment with two edges and the bridge pair
(0,2); the empty front layer leaves every bridge pair without a candidate. -/
def layEnvC10 : LayEnv where
  base :=
    { templateEnv with
      numQubits := 3
      numEdges := 2
      edgeList := [(0, 1), (1, 2)]
      bridgePairs := [(0, 2)]
      initialMapping := [0, 1, 2]
      nodeToQubit := [0, 1, 2]
      qubitToNode := [0, 1, 2] }
  useDecomposedActions := false
  schedulingMap := []

/-- A two-node environment holding one CX, with its `routed_op_nodes` set in
the store at address 0. -/
def envC3 : SeqEnvR where
  val :=
    { base :=
        { templateEnv with
          numQubits := 2
          numEdges := 1
          edgeList := [(0, 1)]
          circuit := [⟨0, true, [0, 1]⟩]
          initialMapping := [0, 1]
          nodeToQubit := [0, 1]
          qubitToNode := [0, 1]
          dag := [⟨0, true, [0, 1]⟩] }
      restrictSwapsToFrontLayer := true
      blockedSwap := none }
  ref := 0

/-- The store where the `routed_op_nodes` object of `envC3` is empty. -/
def stC3 : Store := fun _ => []

/-- A junk sequential environment (used as default in constructions). -/
def junkSeq : SeqEnv where
  base := templateEnv
  restrictSwapsToFrontLayer := true
  blockedSwap := none

/-- A junk layered environment. -/
def junkLay : LayEnv where
  base := templateEnv
  useDecomposedActions := false
  schedulingMap := []

/-- A sequential environment produced by the constructor on a two-node device
with one CX. -/
def seqEnvW1 : SeqEnv :=
  match mkSeqEnv 2 [(0, 1)] [⟨0, true, [0, 1]⟩] none false false none none
      (fun _ _ => []) (fun _ _ => 0) true with
  | .ok s => s
  | .error _ => junkSeq

/-- A layered environment produced by the constructor on a two-node device
with one CX. -/
def layEnvW1 : LayEnv :=
  match mkLayEnv 2 [(0, 1)] [⟨0, true, [0, 1]⟩] none false false none none
      (fun _ _ => []) (fun _ _ => 0) false with
  | .ok l => l
  | .error _ => junkLay

/-- The three-gate circuit CX(0,1); CX(0,2); CX(2,3) used to exhibit a
reachable state with a pending schedulable gate. -/
def circC4 : List OpNode :=
  [⟨1, true, [0, 1]⟩, ⟨2, true, [0, 2]⟩, ⟨3, true, [2, 3]⟩]

/-- The commutation groups `CommutationAnalysis` computes for `circC4`:
CX(0,1) and CX(0,2) share their control qubit 0 and therefore commute (one
group on wire 0), while CX(0,2) and CX(2,3) meet on wire 2 as target and
control and do not commute (two groups on wire 2). -/
def cgC4 : Nat → Nat → List OpNode := fun q i =>
  if q = 0 ∧ i = 0 then [⟨1, true, [0, 1]⟩, ⟨2, true, [0, 2]⟩]
  else if q = 1 ∧ i = 0 then [⟨1, true, [0, 1]⟩]
  else if q = 2 ∧ i = 0 then [⟨2, true, [0, 2]⟩]
  else if q = 2 ∧ i = 1 then [⟨3, true, [2, 3]⟩]
  else if q = 3 ∧ i = 0 then [⟨3, true, [2, 3]⟩]
  else []

/-- The group index of each operation of `circC4` on each of its wires. -/
def ciC4 : Nat → Nat → Nat := fun opId q =>
  if opId = 3 ∧ q = 2 then 1 else 0

/-- A sequential environment built by the constructor on the 4-node graph
with edges (0,2), (2,3), (1,3), identity mapping, circuit `circC4`, and
commutation analysis enabled. -/
def seqEnvC4i : SeqEnv :=
  match mkSeqEnv 4 [(0, 2), (2, 3), (1, 3)] circC4 none true true none none
      cgC4 ciC4 true with
  | .ok s => s
  | .error _ => junkSeq

/-- `seqEnvC4i` after one `reset`.  The reset's scheduling pass blocks
CX(0,1) (nodes 0–1 are not adjacent), commits CX(0,2) through the
commutation lookahead, and has already locked node 2 when it reaches
CX(2,3); the committed CX(0,2)'s removal un-blocks CX(2,3), which is left
pending: the state is reachable but not quiescent. -/
def seqEnvC4r : SeqEnv := seqReset seqEnvC4i

theorem getD_set_self (l : List Nat) (i a d : Nat) (h : i < l.length) :
    (l.set i a).getD i d = a := by
  induction l generalizing i with
  | nil => simp at h
  | cons x xs ih =>
    cases i with
    | zero => rfl
    | succ n => simpa using ih n (by simpa using h)

theorem getD_set_ne (l : List Nat) (i j a d : Nat) (h : i ≠ j) :
    (l.set i a).getD j d = l.getD j d := by
  induction l generalizing i j with
  | nil => rfl
  | cons x xs ih =>
    cases i with
    | zero =>
      cases j with
      | zero => exact absurd rfl h
      | succ m => rfl
    | succ n =>
      cases j with
      | zero => rfl
      | succ m => simpa using ih n m (fun hnm => h (by rw [hnm]))

theorem ext_getD (l1 l2 : List Nat) (hlen : l1.length = l2.length)
    (h : ∀ i, i < l1.length → l1.getD i 0 = l2.getD i 0) : l1 = l2 := by
  induction l1 generalizing l2 with
  | nil => cases l2 with
    | nil => rfl
    | cons y ys => simp at hlen
  | cons x xs ih =>
    cases l2 with
    | nil => simp at hlen
    | cons y ys =>
      have h0 := h 0 (by simp)
      simp only [List.getD_cons_zero] at h0
      have htail : xs = ys := by
        refine ih ys (by simpa using hlen) (fun i hi => ?_)
        simpa using h (i + 1) (by simpa using Nat.succ_lt_succ hi)
      rw [h0, htail]

theorem natContains_iff (l : List Nat) (x : Nat) :
    l.contains x = true ↔ x ∈ l := by
  simp

theorem getD_mem (l : List Nat) (i d : Nat) (h : i < l.length) :
    l.getD i d ∈ l := by
  induction l generalizing i with
  | nil => simp at h
  | cons x xs ih =>
    cases i with
    | zero => simp
    | succ n =>
      simp only [List.getD_cons_succ]
      exact List.mem_cons_of_mem x (ih n (by simpa using h))

theorem getD_pair_mem (l : List (Nat × Nat)) (i : Nat) (d : Nat × Nat)
    (h : i < l.length) : l.getD i d ∈ l := by
  induction l generalizing i with
  | nil => simp at h
  | cons x xs ih =>
    cases i with
    | zero => simp
    | succ n =>
      simp only [List.getD_cons_succ]
      exact List.mem_cons_of_mem x (ih n (by simpa using h))

theorem setInverseFrom_length (l : List Nat) (m : List Nat) (s : Nat) :
    (setInverseFrom m l s).length = m.length := by
  induction l generalizing m s with
  | nil => rfl
  | cons q rest ih => rw [setInverseFrom, ih, List.length_set]

theorem setInverseFrom_getD_notmem (l : List Nat) (m : List Nat) (s x d : Nat)
    (h : ∀ k, k < l.length → l.getD k 0 ≠ x) :
    (setInverseFrom m l s).getD x d = m.getD x d := by
  induction l generalizing m s with
  | nil => rfl
  | cons q rest ih =>
    have hq : q ≠ x := by simpa using h 0 (by simp)
    rw [setInverseFrom,
      ih (m.set q s) (s + 1)
        (fun k hk => by
          simpa using h (k + 1) (by simpa using Nat.succ_lt_succ hk))]
    exact getD_set_ne m q x s d hq

theorem setInverseFrom_getD (l : List Nat) (m : List Nat) (s : Nat)
    (hb : ∀ i, i < l.length → l.getD i 0 < m.length)
    (hinj : ∀ i, i < l.length → ∀ j, j < l.length →
      l.getD i 0 = l.getD j 0 → i = j) :
    ∀ k, k < l.length → (setInverseFrom m l s).getD (l.getD k 0) 0 = s + k := by
  induction l generalizing m s with
  | nil => intro k hk; simp at hk
  | cons q rest ih =>
    intro k hk
    cases k with
    | zero =>
      rw [List.getD_cons_zero, setInverseFrom]
      rw [setInverseFrom_getD_notmem rest (m.set q s) (s + 1) q 0
        (fun k hk hkq => by
          have h0 : (q :: rest).getD (k + 1) 0 = (q :: rest).getD 0 0 := by
            simpa using hkq
          exact Nat.succ_ne_zero k
            (hinj (k + 1) (by simpa using Nat.succ_lt_succ hk) 0 (by simp) h0))]
      rw [getD_set_self m q s 0 (by simpa using hb 0 (by simp))]
      omega
    | succ n =>
      rw [List.getD_cons_succ, setInverseFrom]
      rw [ih (m.set q s) (s + 1)
        (fun i hi => by
          rw [List.length_set]
          simpa using hb (i + 1) (by simpa using Nat.succ_lt_succ hi))
        (fun i hi j hj hij => by
          have := hinj (i + 1) (by simpa using Nat.succ_lt_succ hi)
            (j + 1) (by simpa using Nat.succ_lt_succ hj) (by simpa using hij)
          omega)
        n (by simpa using hk)]
      omega

theorem inverse_of_perm (nq : Nat) (im m0 : List Nat)
    (hperm : IsPerm im nq) (hlen : m0.length = nq) :
    (setInverseFrom m0 im 0).length = nq ∧
    (∀ n, n < nq → im.getD n 0 < nq ∧
      (setInverseFrom m0 im 0).getD (im.getD n 0) 0 = n) ∧
    (∀ q, q < nq → (setInverseFrom m0 im 0).getD q 0 < nq ∧
      im.getD ((setInverseFrom m0 im 0).getD q 0) 0 = q) := by
  obtain ⟨hl, hbd, hinj, hsurj⟩ := hperm
  have hb : ∀ i, i < im.length → im.getD i 0 < m0.length := fun i hi => by
    rw [hlen]; exact hbd i (hl ▸ hi)
  have hinj2 : ∀ i, i < im.length → ∀ j, j < im.length →
      im.getD i 0 = im.getD j 0 → i = j := fun i hi j hj h =>
    hinj i (hl ▸ hi) j (hl ▸ hj) h
  have hmain := setInverseFrom_getD im m0 0 hb hinj2
  refine ⟨by rw [setInverseFrom_length, hlen], fun n hn => ?_, fun q hq => ?_⟩
  · exact ⟨hbd n hn, by simpa using hmain n (hl ▸ hn)⟩
  · have := hsurj q hq
    rw [List.any_eq_true] at this
    obtain ⟨i, hi, hiq⟩ := this
    rw [List.mem_range] at hi
    rw [beq_iff_eq] at hiq
    have hval : (setInverseFrom m0 im 0).getD q 0 = i := by
      rw [← hiq]; simpa using hmain i (hl ▸ hi)
    rw [hval, hiq]
    exact ⟨hi, rfl⟩

theorem swapApply_n2q (e : Env) (a b : Nat) :
    (swapApply e (a, b)).nodeToQubit =
      (e.nodeToQubit.set a (e.nodeToQubit.getD b 0)).set b
        (e.nodeToQubit.getD a 0) := rfl

theorem swapApply_q2n (e : Env) (a b : Nat) :
    (swapApply e (a, b)).qubitToNode =
      (e.qubitToNode.set (e.nodeToQubit.getD a 0) b).set
        (e.nodeToQubit.getD b 0) a := rfl

theorem set_set_getD (l : List Nat) (i j x y n : Nat)
    (hi : i < l.length) (hj : j < l.length) :
    ((l.set i x).set j y).getD n 0 =
      if n = j then y else if n = i then x else l.getD n 0 := by
  by_cases hnj : n = j
  · rw [if_pos hnj, hnj, getD_set_self _ j y 0 (by rwa [List.length_set])]
  · rw [if_neg hnj, getD_set_ne _ j n y 0 (fun h => hnj h.symm)]
    by_cases hni : n = i
    · rw [if_pos hni, hni, getD_set_self _ i x 0 hi]
    · rw [if_neg hni, getD_set_ne _ i n x 0 (fun h => hni h.symm)]

theorem swapApply_MapInv (e : Env) (a b : Nat)
    (ha : a < e.numQubits) (hb : b < e.numQubits) (h : MapInv e) :
    MapInv (swapApply e (a, b)) := by
  obtain ⟨hlen1, hlen2, hn, hq⟩ := h
  have ha' : a < e.nodeToQubit.length := by rwa [hlen1]
  have hb' : b < e.nodeToQubit.length := by rwa [hlen1]
  have hqa_lt : e.nodeToQubit.getD a 0 < e.numQubits := (hn a ha).1
  have hqb_lt : e.nodeToQubit.getD b 0 < e.numQubits := (hn b hb).1
  have hqa' : e.nodeToQubit.getD a 0 < e.qubitToNode.length := by
    rwa [hlen2]
  have hqb' : e.nodeToQubit.getD b 0 < e.qubitToNode.length := by
    rwa [hlen2]
  have hq2n_qa : e.qubitToNode.getD (e.nodeToQubit.getD a 0) 0 = a := (hn a ha).2
  have hq2n_qb : e.qubitToNode.getD (e.nodeToQubit.getD b 0) 0 = b := (hn b hb).2
  have hn2q : ∀ n, (swapApply e (a, b)).nodeToQubit.getD n 0 =
      if n = b then e.nodeToQubit.getD a 0
      else if n = a then e.nodeToQubit.getD b 0
      else e.nodeToQubit.getD n 0 := by
    intro n
    rw [swapApply_n2q]
    exact set_set_getD e.nodeToQubit a b _ _ n ha' hb'
  have hq2n : ∀ q, (swapApply e (a, b)).qubitToNode.getD q 0 =
      if q = e.nodeToQubit.getD b 0 then a
      else if q = e.nodeToQubit.getD a 0 then b
      else e.qubitToNode.getD q 0 := by
    intro q
    rw [swapApply_q2n]
    exact set_set_getD e.qubitToNode _ _ b a q hqa' hqb'
  have habeq : e.nodeToQubit.getD a 0 = e.nodeToQubit.getD b 0 → a = b := by
    intro hh
    rw [← hq2n_qa, ← hq2n_qb, hh]
  refine ⟨?_, ?_, ?_, ?_⟩
  · rw [swapApply_n2q, List.length_set, List.length_set]
    exact hlen1
  · rw [swapApply_q2n, List.length_set, List.length_set]
    exact hlen2
  · intro n hlt
    rw [hn2q n]
    by_cases hnb : n = b
    · rw [if_pos hnb, hq2n]
      by_cases hab : e.nodeToQubit.getD a 0 = e.nodeToQubit.getD b 0
      · rw [if_pos hab, hnb]
        exact ⟨hqa_lt, habeq hab⟩
      · rw [if_neg hab, if_pos rfl, hnb]
        exact ⟨hqa_lt, rfl⟩
    · rw [if_neg hnb]
      by_cases hna : n = a
      · rw [if_pos hna, hq2n, if_pos rfl, hna]
        exact ⟨hqb_lt, rfl⟩
      · rw [if_neg hna, hq2n]
        have hv := (hn n hlt).2
        have hne_b : e.nodeToQubit.getD n 0 ≠ e.nodeToQubit.getD b 0 := by
          intro hh
          exact hnb (by rw [← hv, hh, hq2n_qb])
        have hne_a : e.nodeToQubit.getD n 0 ≠ e.nodeToQubit.getD a 0 := by
          intro hh
          exact hna (by rw [← hv, hh, hq2n_qa])
        rw [if_neg hne_b, if_neg hne_a]
        exact ⟨(hn n hlt).1, hv⟩
  · intro q hlt
    rw [hq2n q]
    by_cases hqb2 : q = e.nodeToQubit.getD b 0
    · rw [if_pos hqb2, hn2q]
      by_cases hab : a = b
      · rw [if_pos hab, hqb2, hab]
        exact ⟨hb, rfl⟩
      · rw [if_neg hab, if_pos rfl, hqb2]
        exact ⟨ha, rfl⟩
    · rw [if_neg hqb2]
      by_cases hqa2 : q = e.nodeToQubit.getD a 0
      · rw [if_pos hqa2, hn2q, if_pos rfl, hqa2]
        exact ⟨hb, rfl⟩
      · rw [if_neg hqa2, hn2q]
        have hv := (hq q hlt).2
        have hne_b : e.qubitToNode.getD q 0 ≠ b := by
          intro hh
          exact hqb2 (by rw [← hv, hh])
        have hne_a : e.qubitToNode.getD q 0 ≠ a := by
          intro hh
          exact hqa2 (by rw [← hv, hh])
        rw [if_neg hne_b, if_neg hne_a]
        exact ⟨(hq q hlt).1, hv⟩

theorem foldl_schedStep_proj {α : Sort 1} (f : Env → α)
    (hf : ∀ e g, f (scheduleGatesStep e g) = f e) :
    ∀ (gs : List (OpNode × List Nat)) (e : Env),
      f (gs.foldl scheduleGatesStep e) = f e := by
  intro gs
  induction gs with
  | nil => intro e; rfl
  | cons g rest ih => intro e; rw [List.foldl_cons, ih, hf]

theorem scheduleGates_nodeToQubit (e : Env) (gs : List (OpNode × List Nat)) :
    (scheduleGates e gs).nodeToQubit = e.nodeToQubit :=
  foldl_schedStep_proj Env.nodeToQubit (fun _ _ => rfl) gs e

theorem scheduleGates_qubitToNode (e : Env) (gs : List (OpNode × List Nat)) :
    (scheduleGates e gs).qubitToNode = e.qubitToNode :=
  foldl_schedStep_proj Env.qubitToNode (fun _ _ => rfl) gs e

theorem scheduleGates_numQubits (e : Env) (gs : List (OpNode × List Nat)) :
    (scheduleGates e gs).numQubits = e.numQubits :=
  foldl_schedStep_proj Env.numQubits (fun _ _ => rfl) gs e

theorem scheduleGates_numEdges (e : Env) (gs : List (OpNode × List Nat)) :
    (scheduleGates e gs).numEdges = e.numEdges :=
  foldl_schedStep_proj Env.numEdges (fun _ _ => rfl) gs e

theorem scheduleGates_edgeList (e : Env) (gs : List (OpNode × List Nat)) :
    (scheduleGates e gs).edgeList = e.edgeList :=
  foldl_schedStep_proj Env.edgeList (fun _ _ => rfl) gs e

theorem scheduleGates_initialMapping (e : Env) (gs : List (OpNode × List Nat)) :
    (scheduleGates e gs).initialMapping = e.initialMapping :=
  foldl_schedStep_proj Env.initialMapping (fun _ _ => rfl) gs e

theorem GoodBase_congr (e1 e2 : Env)
    (h1 : e1.numQubits = e2.numQubits) (h2 : e1.numEdges = e2.numEdges)
    (h3 : e1.edgeList = e2.edgeList)
    (h4 : e1.initialMapping = e2.initialMapping)
    (h5 : e1.nodeToQubit = e2.nodeToQubit)
    (h6 : e1.qubitToNode = e2.qubitToNode) :
    GoodBase e2 → GoodBase e1 := by
  intro h
  unfold GoodBase MapInv IsPerm at h ⊢
  rw [h1, h2, h3, h4, h5, h6]
  exact h

theorem scheduleGates_GoodBase (e : Env) (gs : List (OpNode × List Nat)) :
    GoodBase e → GoodBase (scheduleGates e gs) :=
  GoodBase_congr _ e (scheduleGates_numQubits e gs)
    (scheduleGates_numEdges e gs) (scheduleGates_edgeList e gs)
    (scheduleGates_initialMapping e gs) (scheduleGates_nodeToQubit e gs)
    (scheduleGates_qubitToNode e gs)

theorem seqUpdateState_GoodBase (e : Env) :
    GoodBase e → GoodBase (seqUpdateState e) :=
  scheduleGates_GoodBase e (schedulableGates e false)

theorem removeOpNode_GoodBase (e : Env) (op : OpNode) :
    GoodBase e → GoodBase (removeOpNode e op) :=
  GoodBase_congr _ e rfl rfl rfl rfl rfl rfl

theorem bridgeApply_GoodBase (e : Env) (path : List Nat) :
    GoodBase e → GoodBase (bridgeApply e path) :=
  GoodBase_congr _ e rfl rfl rfl rfl rfl rfl

theorem swapApply_GoodBase (e : Env) (a b : Nat)
    (ha : a < e.numQubits) (hb : b < e.numQubits) :
    GoodBase e → GoodBase (swapApply e (a, b)) := by
  intro ⟨hinv, hedges, hlen, hperm⟩
  exact ⟨swapApply_MapInv e a b ha hb hinv, hedges, hlen, hperm⟩

theorem resetBase_GoodBase (e : Env) (h : GoodBase e) : GoodBase (resetBase e) := by
  obtain ⟨⟨hl1, hl2, hmap1, hmap2⟩, hedges, hlen, hperm⟩ := h
  have hinv := inverse_of_perm e.numQubits e.initialMapping e.qubitToNode hperm hl2
  exact ⟨⟨hperm.1, hinv.1, hinv.2.1, hinv.2.2⟩, hedges, hlen, hperm⟩

theorem calibrate_GoodBase (e : Env) (r : List ℚ) (h : GoodBase e) :
    GoodBase (calibrate e r) := by
  unfold calibrate
  cases e.noiseConfig with
  | none => exact GoodBase_congr _ e rfl rfl rfl rfl rfl rfl h
  | some cfg => exact GoodBase_congr _ e rfl rfl rfl rfl rfl rfl h

theorem mkEnvCore_GoodBase (numQubits : Nat) (edges : List (Nat × Nat))
    (circuit : List OpNode) (imOpt : Option (List Nat)) (ab ca : Bool)
    (erOpt : Option (List ℚ)) (nc : Option NoiseConfig)
    (cg : Nat → Nat → List OpNode) (ci : Nat → Nat → Nat) (e : Env)
    (hedges : ∀ p ∈ edges, p.1 < numQubits ∧ p.2 < numQubits)
    (hperm : IsPerm (imOpt.getD (List.range numQubits)) numQubits)
    (hmk : mkEnvCore numQubits edges circuit imOpt ab ca erOpt nc cg ci =
      Except.ok e) : GoodBase e := by
  simp only [mkEnvCore] at hmk
  rw [if_neg (show ¬(imOpt.getD (List.range numQubits)).length ≠ numQubits from
    fun hh => hh hperm.1)] at hmk
  by_cases h2 : (erOpt.getD (List.replicate edges.length 0)).length ≠ edges.length
  · rw [if_pos h2] at hmk
    exact absurd hmk (by simp)
  · rw [if_neg h2] at hmk
    rw [Except.ok.injEq] at hmk
    subst hmk
    have hbase : GoodBase
        { numQubits := numQubits
          numEdges := edges.length
          edgeList := edges
          bridgePairs :=
            if ab then bridgePairsOf numQubits edges else []
          shortestPaths := spTable numQubits edges
          allowBridgeGate := ab
          commutationAnalysis := ca
          circuit := circuit
          initialMapping := imOpt.getD (List.range numQubits)
          errorRates := erOpt.getD (List.replicate edges.length 0)
          noiseConfig := nc
          logReliabilities := []
          edgeToLogReliability := fun _ => 0
          nodeToQubit := imOpt.getD (List.range numQubits)
          qubitToNode :=
            setInverseFrom (List.replicate numQubits 0)
              (imOpt.getD (List.range numQubits)) 0
          dag := circuit
          routedGates := []
          routedOpNodes := []
          commGroups := cg
          commIdx := ci
          numScheduled2q := 0
          schedulingReward := 0 } := by
      have hinv := inverse_of_perm numQubits (imOpt.getD (List.range numQubits))
        (List.replicate numQubits 0) hperm (List.length_replicate _ _)
      exact ⟨⟨hperm.1, hinv.1, hinv.2.1, hinv.2.2⟩, hedges, rfl, hperm⟩
    cases nc with
    | none => exact hbase
    | some cfg => exact calibrate_GoodBase _ _ hbase

theorem seqStep_GoodBase (s : SeqEnv) (a : Nat) (h : GoodBase s.base) :
    GoodBase (seqStep s a).1.base := by
  cases ht : terminatedE s.base with
  | true => simpa [seqStep, ht] using h
  | false =>
    by_cases hsw : a < s.base.numEdges
    · have hmem : s.base.edgeList.getD a (0, 0) ∈ s.base.edgeList :=
        getD_pair_mem _ a (0, 0) (by rw [h.2.2.1]; exact hsw)
      have hbnd := h.2.1 _ hmem
      have hgood := swapApply_GoodBase s.base (s.base.edgeList.getD a (0, 0)).1
        (s.base.edgeList.getD a (0, 0)).2 hbnd.1 hbnd.2 h
      simp only [seqStep, ht, hsw]
      simp only [Bool.false_eq_true, if_false, if_true]
      exact seqUpdateState_GoodBase _ (by rwa [Prod.mk.eta] at hgood)
    · simp only [seqStep, ht, hsw]
      simp only [Bool.false_eq_true, if_false]
      cases hargs : bridgeArgs s.base
          (s.base.bridgePairs.getD (a - s.base.numEdges) (0, 0)) with
      | none => exact seqUpdateState_GoodBase _ h
      | some args =>
        exact seqUpdateState_GoodBase _
          (bridgeApply_GoodBase _ _ (removeOpNode_GoodBase _ _ h))

theorem layStep_GoodBase (l : LayEnv) (a : Nat) (out : LayEnv × ℚ × Bool)
    (h : GoodBase l.base) (hstep : layStep l a = some out) :
    GoodBase out.1.base := by
  unfold layStep at hstep
  by_cases hsw : a < l.base.numEdges
  · simp only [hsw, if_true] at hstep
    have hmem : l.base.edgeList.getD a (0, 0) ∈ l.base.edgeList :=
      getD_pair_mem _ a (0, 0) (by rw [h.2.2.1]; exact hsw)
    have hbnd := h.2.1 _ hmem
    have hgood := swapApply_GoodBase l.base (l.base.edgeList.getD a (0, 0)).1
      (l.base.edgeList.getD a (0, 0)).2 hbnd.1 hbnd.2 h
    rw [Option.some.injEq] at hstep
    subst hstep
    rwa [Prod.mk.eta] at hgood
  · simp only [hsw, if_false] at hstep
    by_cases hbr : a < l.base.numEdges + l.base.bridgePairs.length
    · simp only [hbr, if_true] at hstep
      cases hargs : bridgeArgs l.base
          (l.base.bridgePairs.getD (a - l.base.numEdges) (0, 0)) with
      | none => rw [hargs] at hstep; exact absurd hstep (by simp)
      | some args =>
        rw [hargs] at hstep
        rw [Option.some.injEq] at hstep
        subst hstep
        exact bridgeApply_GoodBase _ _ (removeOpNode_GoodBase _ _ h)
    · simp only [hbr, if_false] at hstep
      rw [Option.some.injEq] at hstep
      subst hstep
      exact scheduleGates_GoodBase _ _ h

theorem ReachableSeq_GoodBase (s : SeqEnv) (h : ReachableSeq s) :
    GoodBase s.base := by
  induction h with
  | init nq edges circuit imOpt ab ca erOpt nc cg ci rs s hedges hperm hmk =>
    unfold mkSeqEnv at hmk
    cases hcore : mkEnvCore nq edges circuit imOpt ab ca erOpt nc cg ci with
    | error msg => rw [hcore] at hmk; exact absurd hmk (by simp [Except.map])
    | ok e =>
      rw [hcore] at hmk
      have : s.base = e := by
        simp only [Except.map] at hmk
        rw [Except.ok.injEq] at hmk
        rw [← hmk]
      rw [this]
      exact mkEnvCore_GoodBase nq edges circuit imOpt ab ca erOpt nc cg ci e
        hedges hperm hcore
  | reset s hs ih => exact seqUpdateState_GoodBase _ (resetBase_GoodBase _ ih)
  | step s a hs ha ih => exact seqStep_GoodBase s a ih

theorem ReachableLay_GoodBase (l : LayEnv) (h : ReachableLay l) :
    GoodBase l.base := by
  induction h with
  | init nq edges circuit imOpt ab ca erOpt nc cg ci ud l hedges hperm hmk =>
    unfold mkLayEnv at hmk
    cases hcore : mkEnvCore nq edges circuit imOpt ab ca erOpt nc cg ci with
    | error msg => rw [hcore] at hmk; exact absurd hmk (by simp [Except.map])
    | ok e =>
      rw [hcore] at hmk
      have : l.base = e := by
        simp only [Except.map] at hmk
        rw [Except.ok.injEq] at hmk
        rw [← hmk]
      rw [this]
      exact mkEnvCore_GoodBase nq edges circuit imOpt ab ca erOpt nc cg ci e
        hedges hperm hcore
  | reset l hl ih =>
    exact scheduleGates_GoodBase _ _ (resetBase_GoodBase _ ih)
  | step l a out hl ha hstep ih => exact layStep_GoodBase l a out ih hstep

/-- **C1.** For every reachable state of a routing environment (sequential or
layered; after construction, after reset, and after any sequence of step
actions), `node_to_qubit` and `qubit_to_node` are exact mutual inverses —
`qubit_to_node[node_to_qubit[n]] = n` for every physical node `n` — and the
mapping arrays are mutated only by a SWAP exchanging two entries: BRIDGE
application and gate commitment leave both arrays unchanged, and a SWAP on
edge `(a, b)` exchanges exactly the entries at `a` and `b`. -/
theorem c1_mapping_invariant :
    (∀ s : SeqEnv, ReachableSeq s → MapInv s.base) ∧
    (∀ l : LayEnv, ReachableLay l → MapInv l.base) ∧
    (∀ (e : Env) (path : List Nat),
      (bridgeApply e path).nodeToQubit = e.nodeToQubit ∧
      (bridgeApply e path).qubitToNode = e.qubitToNode) ∧
    (∀ (e : Env) (gs : List (OpNode × List Nat)),
      (scheduleGates e gs).nodeToQubit = e.nodeToQubit ∧
      (scheduleGates e gs).qubitToNode = e.qubitToNode) ∧
    (∀ (e : Env) (a b : Nat), a < e.nodeToQubit.length →
      b < e.nodeToQubit.length → ∀ n, n < e.nodeToQubit.length →
      (swapApply e (a, b)).nodeToQubit.getD n 0 =
        if n = b then e.nodeToQubit.getD a 0
        else if n = a then e.nodeToQubit.getD b 0
        else e.nodeToQubit.getD n 0) := by
  refine ⟨fun s h => (ReachableSeq_GoodBase s h).1,
    fun l h => (ReachableLay_GoodBase l h).1,
    fun e path => ⟨rfl, rfl⟩,
    fun e gs => ⟨scheduleGates_nodeToQubit e gs, scheduleGates_qubitToNode e gs⟩,
    fun e a b ha hb n hn => ?_⟩
  rw [swapApply_n2q]
  exact set_set_getD e.nodeToQubit a b _ _ n ha hb

/-- Witness for C1: the invariant evaluated on concrete constructor-built
sequential and layered environments. -/
theorem c1_mapping_invariant_witness :
    MapInv seqEnvW1.base ∧ MapInv layEnvW1.base :=
  ⟨c1_mapping_invariant.1 seqEnvW1
      (ReachableSeq.init 2 [(0, 1)] [⟨0, true, [0, 1]⟩] none false false none
        none (fun _ _ => []) (fun _ _ => 0) true seqEnvW1 (by decide)
        (by decide) rfl),
    c1_mapping_invariant.2.1 layEnvW1
      (ReachableLay.init 2 [(0, 1)] [⟨0, true, [0, 1]⟩] none false false none
        none (fun _ _ => []) (fun _ _ => 0) false layEnvW1 (by decide)
        (by decide) rfl)⟩

theorem isSchedulable_iff (e : Env) (nodes locked : List Nat) :
    isSchedulable e nodes locked = true ↔
      validNodes e nodes ∧ ∀ n ∈ nodes, n ∉ locked := by
  unfold isSchedulable validNodes
  simp [List.all_eq_true]

theorem addGate_mem (gates : List (OpNode × List Nat)) (h g : OpNode × List Nat)
    (hm : g ∈ addGate gates h) : g ∈ gates ∨ g = h := by
  unfold addGate at hm
  by_cases hc : gates.contains h
  · rw [if_pos hc] at hm
    exact Or.inl hm
  · rw [if_neg hc] at hm
    rcases List.mem_append.mp hm with h1 | h2
    · exact Or.inl h1
    · exact Or.inr (by simpa using h2)

theorem foldl_pred_preserve {β : Type} (P : OpNode × List Nat → Prop)
    (f : List (OpNode × List Nat) → β → List (OpNode × List Nat))
    (hf : ∀ gs b, (∀ g ∈ gs, P g) → ∀ g ∈ f gs b, P g) :
    ∀ (l : List β) (gs : List (OpNode × List Nat)),
      (∀ g ∈ gs, P g) → ∀ g ∈ l.foldl f gs, P g := by
  intro l
  induction l with
  | nil => intro gs h; exact h
  | cons b rest ih =>
    intro gs h
    rw [List.foldl_cons]
    exact ih (f gs b) (hf gs b h)

theorem commFold_pred (e : Env) (locked : List Nat) (op : OpNode)
    (qs : List Nat) (gates : List (OpNode × List Nat))
    (h : ∀ g ∈ gates, validNodes e g.2) :
    ∀ g ∈ qs.foldl (fun gs q =>
        (commCandidates e op q).foldl (fun gs c =>
          if isSchedulable e (mapNodes e c.qargs) locked then
            addGate gs (c, mapNodes e c.qargs) else gs) gs) gates,
      validNodes e g.2 := by
  refine foldl_pred_preserve (fun g => validNodes e g.2) _ ?_ qs gates h
  intro gs q hgs
  refine foldl_pred_preserve (fun g => validNodes e g.2) _ ?_
    (commCandidates e op q) gs hgs
  intro gs2 c hgs2 g hgm
  by_cases hc : isSchedulable e (mapNodes e c.qargs) locked = true
  · rw [if_pos hc] at hgm
    rcases addGate_mem gs2 _ g hgm with h1 | h2
    · exact hgs2 g h1
    · rw [h2]
      exact ((isSchedulable_iff e _ locked).mp hc).1
  · rw [if_neg hc] at hgm
    exact hgs2 g hgm

theorem schedPass_sound (e : Env) (ops : List OpNode) :
    ∀ (gates : List (OpNode × List Nat)) (locked : List Nat),
      (∀ g ∈ gates, validNodes e g.2) →
      ∀ g ∈ schedPass e ops gates locked, validNodes e g.2 := by
  induction ops with
  | nil =>
    intro gates locked h g hg
    rw [schedPass] at hg
    exact h g hg
  | cons op rest ih =>
    intro gates locked h g hg
    rw [schedPass] at hg
    simp only [] at hg
    by_cases hs : isSchedulable e (mapNodes e op.qargs) locked = true
    · rw [if_pos hs] at hg
      have hadd : ∀ g2 ∈ addGate gates (op, mapNodes e op.qargs),
          validNodes e g2.2 := by
        intro g2 hg2
        rcases addGate_mem gates _ g2 hg2 with h1 | h2
        · exact h g2 h1
        · rw [h2]
          exact ((isSchedulable_iff e _ locked).mp hs).1
      by_cases hbreak : locked.length = e.numQubits
      · rw [if_pos hbreak] at hg
        exact hadd g hg
      · rw [if_neg hbreak] at hg
        exact ih _ _ hadd g hg
    · rw [if_neg hs] at hg
      cases hca : e.commutationAnalysis with
      | false =>
        simp only [hca, Bool.false_eq_true, if_false] at hg
        by_cases hbreak :
            (lockedAdd locked (mapNodes e op.qargs)).length = e.numQubits
        · rw [if_pos hbreak] at hg
          exact h g hg
        · rw [if_neg hbreak] at hg
          exact ih _ _ h g hg
      | true =>
        simp only [hca, if_true] at hg
        have hg1 := commFold_pred e locked op
          (op.qargs.filter (fun q => !(locked.contains q))) gates h
        by_cases hbreak :
            (lockedAdd locked (mapNodes e op.qargs)).length = e.numQubits
        · rw [if_pos hbreak] at hg
          exact hg1 g hg
        · rw [if_neg hbreak] at hg
          exact ih _ _ hg1 g hg

theorem lockedAdd_mem (nodes : List Nat) :
    ∀ (locked : List Nat) (n : Nat), n ∈ locked → n ∈ lockedAdd locked nodes := by
  unfold lockedAdd
  induction nodes with
  | nil => intro locked n h; exact h
  | cons m rest ih =>
    intro locked n h
    rw [List.foldl_cons]
    refine ih _ n ?_
    by_cases hc : locked.contains m = true
    · rw [if_pos hc]; exact h
    · rw [if_neg hc]; exact List.mem_append_left _ h

theorem commFold_avoids (e : Env) (locked : List Nat) (op : OpNode)
    (qs : List Nat) (gates : List (OpNode × List Nat)) :
    ∀ g ∈ qs.foldl (fun gs q =>
        (commCandidates e op q).foldl (fun gs c =>
          if isSchedulable e (mapNodes e c.qargs) locked then
            addGate gs (c, mapNodes e c.qargs) else gs) gs) gates,
      g ∈ gates ∨ ∀ n ∈ g.2, n ∉ locked := by
  refine foldl_pred_preserve (fun g => g ∈ gates ∨ ∀ n ∈ g.2, n ∉ locked) _ ?_
    qs gates (fun g hg => Or.inl hg)
  intro gs q hgs
  refine foldl_pred_preserve _ _ ?_ (commCandidates e op q) gs hgs
  intro gs2 c hgs2 g hgm
  by_cases hc : isSchedulable e (mapNodes e c.qargs) locked = true
  · rw [if_pos hc] at hgm
    rcases addGate_mem gs2 _ g hgm with h1 | h2
    · exact hgs2 g h1
    · rw [h2]
      exact Or.inr ((isSchedulable_iff e _ locked).mp hc).2
  · rw [if_neg hc] at hgm
    exact hgs2 g hgm

theorem schedPass_avoids_locked (e : Env) (ops : List OpNode) :
    ∀ (gates : List (OpNode × List Nat)) (locked : List Nat),
      ∀ g ∈ schedPass e ops gates locked,
        g ∈ gates ∨ ∀ n ∈ g.2, n ∉ locked := by
  induction ops with
  | nil =>
    intro gates locked g hg
    rw [schedPass] at hg
    exact Or.inl hg
  | cons op rest ih =>
    intro gates locked g hg
    rw [schedPass] at hg
    simp only [] at hg
    by_cases hs : isSchedulable e (mapNodes e op.qargs) locked = true
    · rw [if_pos hs] at hg
      have hmem : ∀ g2 ∈ addGate gates (op, mapNodes e op.qargs),
          g2 ∈ gates ∨ ∀ n ∈ g2.2, n ∉ locked := by
        intro g2 hg2
        rcases addGate_mem gates _ g2 hg2 with h1 | h2
        · exact Or.inl h1
        · rw [h2]
          exact Or.inr ((isSchedulable_iff e _ locked).mp hs).2
      by_cases hbreak : locked.length = e.numQubits
      · rw [if_pos hbreak] at hg
        exact hmem g hg
      · rw [if_neg hbreak] at hg
        rcases ih _ _ g hg with h1 | h2
        · exact hmem g h1
        · exact Or.inr h2
    · rw [if_neg hs] at hg
      cases hca : e.commutationAnalysis with
      | false =>
        simp only [hca, Bool.false_eq_true, if_false] at hg
        by_cases hbreak :
            (lockedAdd locked (mapNodes e op.qargs)).length = e.numQubits
        · rw [if_pos hbreak] at hg
          exact Or.inl hg
        · rw [if_neg hbreak] at hg
          rcases ih _ _ g hg with h1 | h2
          · exact Or.inl h1
          · exact Or.inr (fun n hn hmem => h2 n hn (lockedAdd_mem _ locked n hmem))
      | true =>
        simp only [hca, if_true] at hg
        by_cases hbreak :
            (lockedAdd locked (mapNodes e op.qargs)).length = e.numQubits
        · rw [if_pos hbreak] at hg
          exact commFold_avoids e locked op _ gates g hg
        · rw [if_neg hbreak] at hg
          rcases ih _ _ g hg with h1 | h2
          · exact commFold_avoids e locked op _ gates g h1
          · exact Or.inr (fun n hn hmem => h2 n hn (lockedAdd_mem _ locked n hmem))

/-- **C2 (amended).** In a single scheduling pass, an operation passes the
schedulability test iff its node tuple is not a two-node one or its two mapped
nodes are joined by a connectivity edge, AND none of its nodes belong to the
locked set; the locked set is fed by the nodes of operations found
*unschedulable* (blocked) earlier in the pass, not by scheduled operations, so
a later dependent operation of the same pass may reuse a scheduled
operation's nodes.  Every operation the pass returns — whether scheduled
directly or via commutation lookahead — satisfied the test when it was added:
every scheduled two-qubit operation lies on a connectivity edge, and no
operation scheduled during the remainder of a pass touches a node that was
already claimed when that remainder started. -/
theorem c2_schedulable_characterization (e : Env) :
    (∀ (nodes locked : List Nat),
      isSchedulable e nodes locked = true ↔
        (nodes.length ≠ 2 ∨
          hasEdge e (nodes.getD 0 0) (nodes.getD 1 0) = true) ∧
        ∀ n ∈ nodes, n ∉ locked) ∧
    (∀ (b : Bool) (g : OpNode × List Nat), g ∈ schedulableGates e b →
      g.2.length ≠ 2 ∨ hasEdge e (g.2.getD 0 0) (g.2.getD 1 0) = true) ∧
    (∀ (ops : List OpNode) (gates : List (OpNode × List Nat))
      (locked : List Nat) (g : OpNode × List Nat),
      g ∈ schedPass e ops gates locked →
      g ∈ gates ∨ ∀ n ∈ g.2, n ∉ locked) := by
  refine ⟨fun nodes locked => isSchedulable_iff e nodes locked,
    fun b g hg => ?_, fun ops gates locked g hg =>
      schedPass_avoids_locked e ops gates locked g hg⟩
  simp only [schedulableGates] at hg
  exact schedPass_sound e _ [] [] (by simp) g hg

/-- **C2 counterexample.** Two CX gates on the same qubit pair, mapped to the
single edge of a two-node device: both are scheduled in the same pass, so the
nodes `[0, 1]` touched by the first scheduled operation are *not* claimed and
a subsequent operation of the same pass uses exactly those nodes, contrary to
the claim. -/
theorem c2_counterexample :
    schedulableGates envC2 false =
      [(⟨0, true, [0, 1]⟩, [0, 1]), (⟨1, true, [0, 1]⟩, [0, 1])] ∧
    (⟨0, true, [0, 1]⟩ : OpNode) ≠ ⟨1, true, [0, 1]⟩ := by
  decide

/-- Witness for C2: both parts of the characterization evaluated on the
concrete two-CX environment. -/
theorem c2_witness :
    (isSchedulable envC2 [0, 1] [] = true ↔
      (([0, 1] : List Nat).length ≠ 2 ∨
        hasEdge envC2 (([0, 1] : List Nat).getD 0 0)
          (([0, 1] : List Nat).getD 1 0) = true) ∧
      ∀ n ∈ ([0, 1] : List Nat), n ∉ ([] : List Nat)) ∧
    (([0, 1] : List Nat).length ≠ 2 ∨
      hasEdge envC2 (([0, 1] : List Nat).getD 0 0)
        (([0, 1] : List Nat).getD 1 0) = true) ∧
    ((⟨1, true, [0, 1]⟩, [0, 1]) ∈ ([] : List (OpNode × List Nat)) ∨
      ∀ n ∈ ([0, 1] : List Nat), n ∉ ([] : List Nat)) :=
  ⟨(c2_schedulable_characterization envC2).1 [0, 1] [],
    (c2_schedulable_characterization envC2).2.1 false
      (⟨0, true, [0, 1]⟩, [0, 1]) (by decide),
    (c2_schedulable_characterization envC2).2.2
      [⟨0, true, [0, 1]⟩, ⟨1, true, [0, 1]⟩] [] []
      (⟨1, true, [0, 1]⟩, [0, 1]) (by decide)⟩

/-- **C5.** In the sequential variant the terminated state (empty DAG) is
absorbing: for every terminated state and every action, `step` returns zero
reward, reports `terminated = true`, and leaves the entire environment state
unchanged. -/
theorem c5_terminal_absorbing (s : SeqEnv) (a : Nat)
    (h : terminatedE s.base = true) : seqStep s a = (s, 0, true) := by
  unfold seqStep
  rw [h]
  rfl

/-- Witness for C5: a concrete terminated sequential environment. -/
theorem c5_witness : seqStep seqEnvC5 3 = (seqEnvC5, 0, true) :=
  c5_terminal_absorbing seqEnvC5 3 rfl

/-- **C4 counterexample.** A reachable state — constructor (4-node graph
with edges (0,2), (2,3), (1,3), identity mapping, circuit
CX(0,1); CX(0,2); CX(2,3), commutation analysis on) followed by one plain
`reset` — in which the reset's own scheduling pass left CX(2,3) pending:
the lookahead at the blocked CX(0,1) committed CX(0,2), whose removal
un-blocks CX(2,3) only after the pass has already locked node 2 and moved
past it.  Stepping with BRIDGE action 3 (= `num_edges`, the pair (0,3),
which has no front-layer candidate) then returns reward 1 — the trailing
`_update_state` commits CX(2,3) — and changes both the DAG and the
routed-gates log, refuting the claim's "reward of exactly zero and state
unchanged". -/
theorem c4_counterexample :
    ReachableSeq seqEnvC4r ∧
    terminatedE seqEnvC4r.base = false ∧
    seqEnvC4r.base.numEdges = 3 ∧
    seqEnvC4r.base.bridgePairs.getD 0 (0, 0) = (0, 3) ∧
    bridgeArgs seqEnvC4r.base (0, 3) = none ∧
    schedulableGates seqEnvC4r.base false = [(⟨3, true, [2, 3]⟩, [2, 3])] ∧
    (seqStep seqEnvC4r 3).2.1 = 1 ∧
    (seqStep seqEnvC4r 3).1.base.dag ≠ seqEnvC4r.base.dag ∧
    (seqStep seqEnvC4r 3).1.base.routedGates ≠ seqEnvC4r.base.routedGates := by
  refine ⟨ReachableSeq.reset _ (ReachableSeq.init 4 [(0, 2), (2, 3), (1, 3)]
    circC4 none true true none none cgC4 ciC4 true seqEnvC4i (by decide)
    (by decide) rfl), ?_, ?_, ?_, ?_, ?_, ?_, ?_, ?_⟩
  · with_unfolding_all decide
  · with_unfolding_all decide
  · with_unfolding_all decide
  · with_unfolding_all decide
  · with_unfolding_all decide
  · with_unfolding_all decide
  · with_unfolding_all decide
  · with_unfolding_all decide

/-- **C4 (amended).** In the sequential variant, a BRIDGE action whose pair
has no front-layer candidate (`_bridge_args` returns `None`) performs no
bridge: the mapping arrays are unchanged and the action itself contributes
zero reward, the step's reward being exactly the scheduling reward of the
unconditional trailing `_update_state`.  When no gate is schedulable in the
current state, the reward is therefore exactly zero and the DAG and
routed-gates log are also unchanged, apart from the surfaced diagnostic;
when a previous commit left schedulable gates pending — possible with
commutation lookahead, as the counterexample shows — the trailing update
commits them, and the reward is their gate reward rather than zero. -/
theorem c4_invalid_bridge_noop (s : SeqEnv) (a : Nat)
    (hterm : terminatedE s.base = false)
    (ha : s.base.numEdges ≤ a)
    (hrange : a < s.base.numEdges + s.base.bridgePairs.length)
    (hargs : bridgeArgs s.base
      (s.base.bridgePairs.getD (a - s.base.numEdges) (0, 0)) = none) :
    (seqStep s a).1.base.nodeToQubit = s.base.nodeToQubit ∧
    (seqStep s a).1.base.qubitToNode = s.base.qubitToNode ∧
    (seqStep s a).2.1 = (seqUpdateState s.base).schedulingReward ∧
    (schedulableGates s.base false = [] →
      (seqStep s a).2.1 = 0 ∧
      (seqStep s a).1.base.dag = s.base.dag ∧
      (seqStep s a).1.base.routedGates = s.base.routedGates ∧
      (seqStep s a).2.2 = false) := by
  have hsw : ¬ a < s.base.numEdges := Nat.not_lt.mpr ha
  simp only [seqStep, hterm, Bool.false_eq_true, if_false, hsw, hargs]
  refine ⟨scheduleGates_nodeToQubit _ _, scheduleGates_qubitToNode _ _,
    by norm_num, fun hq => ?_⟩
  have hupd : seqUpdateState s.base =
      { s.base with numScheduled2q := 0, schedulingReward := 0 } := by
    rw [seqUpdateState, hq]
    rfl
  rw [hupd]
  refine ⟨by norm_num, rfl, rfl, hterm⟩

/-- Witness for C4: the four-node line with one unroutable CX — a quiescent
state — stepped with the BRIDGE action for the candidate-free pair (1,3)
(action index 4 = three SWAP actions plus one). -/
theorem c4_witness :
    (seqStep seqEnvC4 4).1.base.nodeToQubit = seqEnvC4.base.nodeToQubit ∧
    (seqStep seqEnvC4 4).1.base.qubitToNode = seqEnvC4.base.qubitToNode ∧
    (seqStep seqEnvC4 4).2.1 =
      (seqUpdateState seqEnvC4.base).schedulingReward ∧
    (schedulableGates seqEnvC4.base false = [] →
      (seqStep seqEnvC4 4).2.1 = 0 ∧
      (seqStep seqEnvC4 4).1.base.dag = seqEnvC4.base.dag ∧
      (seqStep seqEnvC4 4).1.base.routedGates = seqEnvC4.base.routedGates ∧
      (seqStep seqEnvC4 4).2.2 = false) :=
  c4_invalid_bridge_noop seqEnvC4 4 rfl (by decide) (by decide) (by decide)

/-- **C7.** Applying `_swap` twice on the same edge restores both mapping
arrays to their values before the first SWAP (net identity on the mapping),
while differing from a single SWAP in its effect on the routed-gates log (two
recorded SWAP gates instead of one) and on the accumulated action reward
(noise-unaware: −3 per application, so −6 against −3). -/
theorem c7_swap_involution (e : Env) (a b : Nat) (hab : a ≠ b)
    (ha : a < e.numQubits) (hb : b < e.numQubits) (hinv : MapInv e) :
    (swapApply (swapApply e (a, b)) (a, b)).nodeToQubit = e.nodeToQubit ∧
    (swapApply (swapApply e (a, b)) (a, b)).qubitToNode = e.qubitToNode ∧
    (swapApply (swapApply e (a, b)) (a, b)).routedGates =
      e.routedGates ++ [(RGate.swapG, [a, b]), (RGate.swapG, [a, b])] ∧
    (swapApply e (a, b)).routedGates =
      e.routedGates ++ [(RGate.swapG, [a, b])] ∧
    (swapApply (swapApply e (a, b)) (a, b)).routedGates ≠
      (swapApply e (a, b)).routedGates ∧
    swapReward (swapApply e (a, b)) (a, b) = swapReward e (a, b) ∧
    (e.noiseConfig = none →
      swapReward e (a, b) = -3 ∧
      swapReward e (a, b) + swapReward (swapApply e (a, b)) (a, b) = -6) := by
  obtain ⟨hlen1, hlen2, hnmap, hqmap⟩ := hinv
  have ha' : a < e.nodeToQubit.length := by rwa [hlen1]
  have hb' : b < e.nodeToQubit.length := by rwa [hlen1]
  have hqa_lt : e.nodeToQubit.getD a 0 < e.qubitToNode.length := by
    rw [hlen2]; exact (hnmap a ha).1
  have hqb_lt : e.nodeToQubit.getD b 0 < e.qubitToNode.length := by
    rw [hlen2]; exact (hnmap b hb).1
  have hq2n_qa : e.qubitToNode.getD (e.nodeToQubit.getD a 0) 0 = a :=
    (hnmap a ha).2
  have hq2n_qb : e.qubitToNode.getD (e.nodeToQubit.getD b 0) 0 = b :=
    (hnmap b hb).2
  have hn2q1 : ∀ n, (swapApply e (a, b)).nodeToQubit.getD n 0 =
      if n = b then e.nodeToQubit.getD a 0
      else if n = a then e.nodeToQubit.getD b 0
      else e.nodeToQubit.getD n 0 := by
    intro n
    rw [swapApply_n2q]
    exact set_set_getD e.nodeToQubit a b _ _ n ha' hb'
  have hq2n1 : ∀ q, (swapApply e (a, b)).qubitToNode.getD q 0 =
      if q = e.nodeToQubit.getD b 0 then a
      else if q = e.nodeToQubit.getD a 0 then b
      else e.qubitToNode.getD q 0 := by
    intro q
    rw [swapApply_q2n]
    exact set_set_getD e.qubitToNode _ _ b a q hqa_lt hqb_lt
  have hlen1' : (swapApply e (a, b)).nodeToQubit.length =
      e.nodeToQubit.length := by
    rw [swapApply_n2q, List.length_set, List.length_set]
  have hlen2' : (swapApply e (a, b)).qubitToNode.length =
      e.qubitToNode.length := by
    rw [swapApply_q2n, List.length_set, List.length_set]
  have hga : (swapApply e (a, b)).nodeToQubit.getD a 0 =
      e.nodeToQubit.getD b 0 := by
    rw [hn2q1 a, if_neg hab, if_pos rfl]
  have hgb : (swapApply e (a, b)).nodeToQubit.getD b 0 =
      e.nodeToQubit.getD a 0 := by
    rw [hn2q1 b, if_pos rfl]
  have hr1 : (swapApply e (a, b)).routedGates =
      e.routedGates ++ [(RGate.swapG, [a, b])] := rfl
  have hr2 : (swapApply (swapApply e (a, b)) (a, b)).routedGates =
      e.routedGates ++ [(RGate.swapG, [a, b]), (RGate.swapG, [a, b])] := by
    show (e.routedGates ++ [(RGate.swapG, [a, b])]) ++
        [(RGate.swapG, [a, b])] =
      e.routedGates ++ [(RGate.swapG, [a, b]), (RGate.swapG, [a, b])]
    rw [List.append_assoc]
    rfl
  refine ⟨?_, ?_, hr2, hr1, ?_, rfl, fun hnc => ?_⟩
  · have hn2q2 : ∀ n,
        (swapApply (swapApply e (a, b)) (a, b)).nodeToQubit.getD n 0 =
        if n = b then (swapApply e (a, b)).nodeToQubit.getD a 0
        else if n = a then (swapApply e (a, b)).nodeToQubit.getD b 0
        else (swapApply e (a, b)).nodeToQubit.getD n 0 := by
      intro n
      rw [swapApply_n2q (swapApply e (a, b)) a b]
      exact set_set_getD _ a b _ _ n (by rwa [hlen1']) (by rwa [hlen1'])
    refine ext_getD _ _ ?_ (fun n hn => ?_)
    · rw [swapApply_n2q, List.length_set, List.length_set, hlen1']
    · rw [hn2q2 n]
      by_cases hnb : n = b
      · rw [if_pos hnb, hga, hnb]
      · rw [if_neg hnb]
        by_cases hna : n = a
        · rw [if_pos hna, hgb, hna]
        · rw [if_neg hna, hn2q1 n, if_neg hnb, if_neg hna]
  · have hq2n2 : ∀ q,
        (swapApply (swapApply e (a, b)) (a, b)).qubitToNode.getD q 0 =
        if q = (swapApply e (a, b)).nodeToQubit.getD b 0 then a
        else if q = (swapApply e (a, b)).nodeToQubit.getD a 0 then b
        else (swapApply e (a, b)).qubitToNode.getD q 0 := by
      intro q
      rw [swapApply_q2n (swapApply e (a, b)) a b]
      refine set_set_getD _ _ _ b a q ?_ ?_
      · rw [hga, hlen2', hlen2]; exact (hnmap b hb).1
      · rw [hgb, hlen2', hlen2]; exact (hnmap a ha).1
    refine ext_getD _ _ ?_ (fun q hq => ?_)
    · rw [swapApply_q2n, List.length_set, List.length_set, hlen2']
    · rw [hq2n2 q, hga, hgb]
      by_cases hqa2 : q = e.nodeToQubit.getD a 0
      · rw [if_pos hqa2, hqa2, hq2n_qa]
      · rw [if_neg hqa2]
        by_cases hqb2 : q = e.nodeToQubit.getD b 0
        · rw [if_pos hqb2, hqb2, hq2n_qb]
        · rw [if_neg hqb2, hq2n1 q, if_neg hqb2, if_neg hqa2]
  · intro hh
    rw [hr1, hr2] at hh
    have := congrArg List.length hh
    simp only [List.length_append, List.length_cons, List.length_nil] at this
    omega
  · unfold swapReward
    rw [show (swapApply e (a, b)).noiseConfig = e.noiseConfig from rfl, hnc]
    norm_num

/-- Witness for C7: the swap pair evaluated on the concrete two-node
noise-unaware environment with its single edge (0,1). -/
theorem c7_witness :
    (swapApply (swapApply envC9u (0, 1)) (0, 1)).nodeToQubit =
      envC9u.nodeToQubit ∧
    (swapApply (swapApply envC9u (0, 1)) (0, 1)).qubitToNode =
      envC9u.qubitToNode ∧
    (swapApply (swapApply envC9u (0, 1)) (0, 1)).routedGates =
      envC9u.routedGates ++ [(RGate.swapG, [0, 1]), (RGate.swapG, [0, 1])] ∧
    (swapApply envC9u (0, 1)).routedGates =
      envC9u.routedGates ++ [(RGate.swapG, [0, 1])] ∧
    (swapApply (swapApply envC9u (0, 1)) (0, 1)).routedGates ≠
      (swapApply envC9u (0, 1)).routedGates ∧
    swapReward (swapApply envC9u (0, 1)) (0, 1) = swapReward envC9u (0, 1) ∧
    (envC9u.noiseConfig = none →
      swapReward envC9u (0, 1) = -3 ∧
      swapReward envC9u (0, 1) + swapReward (swapApply envC9u (0, 1)) (0, 1) =
        -6) :=
  c7_swap_involution envC9u 0 1 (by decide) (by decide) (by decide) (by decide)

theorem bridgeScan_some (e : Env) (pair : Nat × Nat) (l : List OpNode)
    (op : OpNode) (path : List Nat)
    (h : bridgeScan e pair l = some (op, path)) :
    op ∈ l ∧ op.isCX = true ∧
    sortNat (mapNodes e op.qargs) = [pair.1, pair.2] ∧
    path = e.shortestPaths ((mapNodes e op.qargs).getD 0 0)
      ((mapNodes e op.qargs).getD 1 0) := by
  induction l with
  | nil => rw [bridgeScan] at h; exact absurd h (by simp)
  | cons o rest ih =>
    rw [bridgeScan] at h
    by_cases hc : o.isCX = true ∧ sortNat (mapNodes e o.qargs) = [pair.1, pair.2]
    · rw [if_pos hc] at h
      rw [Option.some.injEq, Prod.mk.injEq] at h
      obtain ⟨ho, hp⟩ := h
      subst ho
      exact ⟨List.mem_cons_self o rest, hc.1, hc.2, hp.symm⟩
    · rw [if_neg hc] at h
      have := ih h
      exact ⟨List.mem_cons_of_mem o this.1, this.2⟩

theorem bridgeScan_none_iff (e : Env) (pair : Nat × Nat) (l : List OpNode) :
    bridgeScan e pair l = none ↔
      ∀ op ∈ l, ¬(op.isCX = true ∧
        sortNat (mapNodes e op.qargs) = [pair.1, pair.2]) := by
  induction l with
  | nil => simp [bridgeScan]
  | cons o rest ih =>
    rw [bridgeScan]
    by_cases hc : o.isCX = true ∧ sortNat (mapNodes e o.qargs) = [pair.1, pair.2]
    · rw [if_pos hc]
      constructor
      · intro h; exact absurd h (by simp)
      · intro h; exact absurd hc (h o (List.mem_cons_self o rest))
    · rw [if_neg hc, ih]
      constructor
      · intro h op hop
        rcases List.mem_cons.mp hop with h1 | h2
        · rw [h1]; exact hc
        · exact h op h2
      · intro h op hop
        exact h op (List.mem_cons_of_mem o hop)

/-- **C8 (amended).** `_bridge_args` scans the DAG front layer for a **CX**
operation (not an arbitrary two-qubit operation) whose logical qubits
currently map to the given unordered node pair; when found it returns that
operation together with the shortest-path-table entry between its (control,
target) nodes — three nodes whenever the pair is at distance two — and it
returns `none` exactly when no front-layer CX maps to the pair. -/
theorem c8_bridge_candidate (e : Env) (pair : Nat × Nat) :
    (∀ (op : OpNode) (path : List Nat),
      bridgeArgs e pair = some (op, path) →
      op ∈ frontLayer e.dag ∧ op.isCX = true ∧
      sortNat (mapNodes e op.qargs) = [pair.1, pair.2] ∧
      path = e.shortestPaths ((mapNodes e op.qargs).getD 0 0)
        ((mapNodes e op.qargs).getD 1 0)) ∧
    (bridgeArgs e pair = none ↔
      ∀ op ∈ frontLayer e.dag, ¬(op.isCX = true ∧
        sortNat (mapNodes e op.qargs) = [pair.1, pair.2])) :=
  ⟨fun op path h => bridgeScan_some e pair _ op path h,
    bridgeScan_none_iff e pair _⟩

/-- **C8 counterexample.** A front layer holding a two-qubit operation that is
not a CX, whose mapped nodes are exactly the requested pair (0,2): a two-qubit
operation mapping to the pair is present, yet the lookup returns `none`,
because the code tests `isinstance(op_node.op, CXGate)`, not "two-qubit". -/
theorem c8_counterexample :
    bridgeArgs envC8c (0, 2) = none ∧
    (⟨0, false, [0, 2]⟩ : OpNode) ∈ frontLayer envC8c.dag ∧
    (⟨0, false, [0, 2]⟩ : OpNode).qargs.length = 2 ∧
    sortNat (mapNodes envC8c (⟨0, false, [0, 2]⟩ : OpNode).qargs) = [0, 2] := by
  decide

/-- Witness for C8: the candidate found for the pair (0,2) on the concrete
three-node line. -/
theorem c8_witness :
    (⟨0, true, [0, 2]⟩ : OpNode) ∈ frontLayer envC8w.dag ∧
    (⟨0, true, [0, 2]⟩ : OpNode).isCX = true ∧
    sortNat (mapNodes envC8w (⟨0, true, [0, 2]⟩ : OpNode).qargs) = [0, 2] ∧
    ([0, 1, 2] : List Nat) = envC8w.shortestPaths
      ((mapNodes envC8w (⟨0, true, [0, 2]⟩ : OpNode).qargs).getD 0 0)
      ((mapNodes envC8w (⟨0, true, [0, 2]⟩ : OpNode).qargs).getD 1 0) :=
  (c8_bridge_candidate envC8w (0, 2)).1 ⟨0, true, [0, 2]⟩ [0, 1, 2] rfl

/-- **C9.** Under a noise-unaware configuration (`noise_config is None`) the
reward per committed two-qubit gate is exactly +1, the SWAP reward exactly −3
and the BRIDGE reward exactly −2; under a noise-aware configuration the gate
reward is the edge's log-reliability plus the added-gate constant, the SWAP
reward is 3 times the swapped edge's log-reliability, and the BRIDGE reward is
2 times the sum of the log-reliabilities of the path's two edges plus the
added-gate constant. -/
theorem c9_rewards (e ea : Env) (cfg : NoiseConfig) (edge : Nat × Nat)
    (c m t : Nat) (hu : e.noiseConfig = none)
    (hA : ea.noiseConfig = some cfg) :
    gateReward e edge = 1 ∧ swapReward e edge = -3 ∧
    bridgeReward e c m t = -2 ∧
    gateReward ea edge = ea.edgeToLogReliability edge + cfg.addedGateReward ∧
    swapReward ea edge = 3 * ea.edgeToLogReliability edge ∧
    bridgeReward ea c m t =
      2 * (ea.edgeToLogReliability (m, t) + ea.edgeToLogReliability (c, m)) +
        cfg.addedGateReward := by
  unfold gateReward swapReward bridgeReward
  rw [hu, hA]
  exact ⟨rfl, rfl, rfl, rfl, rfl, rfl⟩

/-- Witness for C9: the six reward values on a concrete noise-unaware
environment and a concrete noise-aware one. -/
theorem c9_witness :
    gateReward envC9u (0, 1) = 1 ∧ swapReward envC9u (0, 1) = -3 ∧
    bridgeReward envC9u 0 1 2 = -2 ∧
    gateReward envC9a (0, 1) =
      envC9a.edgeToLogReliability (0, 1) + cfgC9.addedGateReward ∧
    swapReward envC9a (0, 1) = 3 * envC9a.edgeToLogReliability (0, 1) ∧
    bridgeReward envC9a 0 1 2 =
      2 * (envC9a.edgeToLogReliability (1, 2) +
        envC9a.edgeToLogReliability (0, 1)) + cfgC9.addedGateReward :=
  c9_rewards envC9u envC9a cfgC9 (0, 1) 0 1 2 rfl rfl

/-- **C10.** The layered variant's `step` has no terminated-state guard and no
validity check on BRIDGE actions: a BRIDGE action whose pair has no
front-layer candidate makes `step` raise (unpacking `None`; `none` in this
embedding) instead of the sequential variant's recoverable zero-reward no-op,
and a SWAP action taken in a terminated state is still executed (the SWAP is
recorded into the routed-gates log and `terminated` is still reported
`true`). -/
theorem c10_layered_no_guards :
    (∀ (l : LayEnv) (a : Nat), l.base.numEdges ≤ a →
      a < l.base.numEdges + l.base.bridgePairs.length →
      bridgeArgs l.base
        (l.base.bridgePairs.getD (a - l.base.numEdges) (0, 0)) = none →
      layStep l a = none) ∧
    (∀ (l : LayEnv) (a : Nat), terminatedE l.base = true →
      a < l.base.numEdges →
      (layStep l a).map (fun out => out.1.base.routedGates) =
        some (l.base.routedGates ++ [(RGate.swapG,
          [(l.base.edgeList.getD a (0, 0)).1,
            (l.base.edgeList.getD a (0, 0)).2])]) ∧
      (layStep l a).map (fun out => out.2.2) = some true) := by
  constructor
  · intro l a h1 h2 hargs
    have hsw : ¬ a < l.base.numEdges := Nat.not_lt.mpr h1
    simp only [layStep, hsw, if_false, h2, if_true, hargs]
  · intro l a hterm hsw
    simp only [layStep, hsw, if_true, Option.map_some]
    constructor
    · rfl
    · show some (terminatedE (swapApply l.base (l.base.edgeList.getD a (0, 0)))) =
        some true
      rw [show terminatedE (swapApply l.base (l.base.edgeList.getD a (0, 0))) =
        terminatedE l.base from rfl, hterm]

/-- Witness for C10: the terminated three-node layered environment; action 2
is the BRIDGE on the candidate-free pair (0,2) and action 0 the SWAP on edge
(0,1). -/
theorem c10_witness :
    layStep layEnvC10 2 = none ∧
    (layStep layEnvC10 0).map (fun out => out.1.base.routedGates) =
      some (layEnvC10.base.routedGates ++ [(RGate.swapG,
        [(layEnvC10.base.edgeList.getD 0 (0, 0)).1,
          (layEnvC10.base.edgeList.getD 0 (0, 0)).2])]) ∧
    (layStep layEnvC10 0).map (fun out => out.2.2) = some true :=
  ⟨c10_layered_no_guards.1 layEnvC10 2 (by decide) (by decide) rfl,
    c10_layered_no_guards.2 layEnvC10 0 rfl (by decide)⟩

/-- **C6 (amended).** An error-rate array whose shape differs from the edge
count is rejected by the environment constructor with a descriptive validation
error (the instance is not created) — but `calibrate` performs no shape
validation at all: it stores whatever array it is given (and, when
noise-aware, recomputes the reliabilities from it). -/
theorem c6_shape_validation (numQubits : Nat) (edges : List (Nat × Nat))
    (circuit : List OpNode) (imOpt : Option (List Nat)) (ab ca : Bool)
    (er : List ℚ) (nc : Option NoiseConfig)
    (cg : Nat → Nat → List OpNode) (ci : Nat → Nat → Nat)
    (hlen : (imOpt.getD (List.range numQubits)).length = numQubits)
    (hbad : er.length ≠ edges.length) :
    mkEnvCore numQubits edges circuit imOpt ab ca (some er) nc cg ci =
      Except.error
        "Error rates have invalid shape for the provided coupling map" ∧
    (∀ (e2 : Env) (rates : List ℚ),
      (calibrate e2 rates).errorRates = rates) := by
  constructor
  · simp only [mkEnvCore, Option.getD_some]
    rw [if_neg (fun hh => hh hlen), if_pos hbad]
  · intro e2 rates
    unfold calibrate
    cases e2.noiseConfig with
    | none => rfl
    | some cfg => rfl

/-- **C6 counterexample.** `calibrate` on the three-edge environment accepts
the one-element error-rate array `[2]` and stores it, instead of rejecting
it. -/
theorem c6_counterexample :
    (calibrate envC6 [2]).errorRates = [2] ∧
    ([2] : List ℚ).length ≠ envC6.numEdges := by
  exact ⟨rfl, by decide⟩

/-- Witness for C6: a two-length error-rate array against a one-edge coupling
map is rejected at construction, while `calibrate` stores a wrong-shape
array. -/
theorem c6_witness :
    mkEnvCore 2 [(0, 1)] [] none false false (some [1, 1]) none
      (fun _ _ => []) (fun _ _ => 0) =
      Except.error
        "Error rates have invalid shape for the provided coupling map" ∧
    (calibrate envC6 [0]).errorRates = [0] :=
  ⟨(c6_shape_validation 2 [(0, 1)] [] none false false [1, 1] none
      (fun _ _ => []) (fun _ _ => 0) (by decide) (by decide)).1,
    (c6_shape_validation 2 [(0, 1)] [] none false false [1, 1] none
      (fun _ _ => []) (fun _ _ => 0) (by decide) (by decide)).2 envC6 [0]⟩

/-- **C3 (code bug).** `RoutingEnv.copy` rebinds `node_to_qubit`,
`qubit_to_node`, `dag` and `routed_gates` to fresh value copies, but never
copies `routed_op_nodes` — a set that stepping mutates in place through
`_remove_op_node`.  This contradicts the method's own documentation
("Attributes that are not mutated when stepping through the environment are
copied by reference; other attributes are copied by value").  Concretely:
stepping the copy of a two-node environment with the SWAP action schedules
the CX and adds its node id to the shared set, so the original — whose DAG
still contains the operation — suddenly observes `routed_op_nodes = {0}`. -/
theorem c3_shared_routed_set :
    (readR envC3 stC3).base.routedOpNodes = [] ∧
    (readR envC3 (stepR (copyR envC3) stC3 0).2.1).base.routedOpNodes = [0] ∧
    (readR envC3 (stepR (copyR envC3) stC3 0).2.1).base.dag =
      [⟨0, true, [0, 1]⟩] := by
  refine ⟨rfl, ?_, rfl⟩
  decide
